import Mathlib

/-! PGo runtime: the GCounter resource and the process-initialization barrier.

A shallow embedding of `distsys/resources/gcounter.go` (the resource, its wire
format and one turn of its gossip task), of
`src/runtime/pgo/distsys/initialization.go` (as a system of interleaved calls of
`WaitPeers`, and `checkBarrier` once more as one sequential run) and of the arm
`case 2:` of the critical section `ACRDTResource.receiveReq` of
`test/files/general/NestedCRDTImpl.tla.gotests/NestedCRDTImpl.go`.

Conventions of the embedding.

* Every method of `GCounter` is one atomic state transformer: the locks
  (`stateMu`, `inCSMu`) are not part of the state, a method call is a function
  `GCounter → GCounter` (with a result where the Go method has one).
* `int32` is `Int` with an explicit wrap (`wrapInt32`) at every addition; what is
  proved for every integer holds for those in the range of `int32`.
* The persistent map of `github.com/benbjohnson/immutable` is an association
  list without repeated keys.  The order of iteration of the real map is decided
  by the hash of the keys; maps are compared by their entries, key by key
  (`counters.Equiv`), and sums do not depend on the order (`sumValue_congr`).
-/

namespace PGo

/-! ## TLA+ values -/

/-- Modelled from the spec: package `tla` is not among the sources.  Spec, section 3:
"An immutable tagged sum — number (signed 32-bit integer sufficient for all
arithmetic used here), string, boolean, tuple (ordered), set (unordered,
deduplicated), function/record (mapping from Value to Value)".  A set is held as
the list of its elements and a function as the list of its pairs, each in one
fixed order, so that equal values are equal terms. -/
inductive TLAValue where
  | number (n : Int)
  | string (s : String)
  | bool (b : Bool)
  | tuple (xs : List TLAValue)
  | set (xs : List TLAValue)
  | function (kvs : List (TLAValue × TLAValue))

namespace TLAValue

mutual
/-- Structural equality of values is decidable. -/
def decEq : (a b : TLAValue) → Decidable (a = b)
  | number a, number b =>
    if h : a = b then isTrue (by rw [h]) else isFalse (by intro e; cases e; exact h rfl)
  | string a, string b =>
    if h : a = b then isTrue (by rw [h]) else isFalse (by intro e; cases e; exact h rfl)
  | bool a, bool b =>
    if h : a = b then isTrue (by rw [h]) else isFalse (by intro e; cases e; exact h rfl)
  | tuple xs, tuple ys =>
    match decEqList xs ys with
    | isTrue h => isTrue (by rw [h])
    | isFalse h => isFalse (by intro e; cases e; exact h rfl)
  | set xs, set ys =>
    match decEqList xs ys with
    | isTrue h => isTrue (by rw [h])
    | isFalse h => isFalse (by intro e; cases e; exact h rfl)
  | function xs, function ys =>
    match decEqPairs xs ys with
    | isTrue h => isTrue (by rw [h])
    | isFalse h => isFalse (by intro e; cases e; exact h rfl)
  | number _, string _ => isFalse (by intro e; cases e)
  | number _, bool _ => isFalse (by intro e; cases e)
  | number _, tuple _ => isFalse (by intro e; cases e)
  | number _, set _ => isFalse (by intro e; cases e)
  | number _, function _ => isFalse (by intro e; cases e)
  | string _, number _ => isFalse (by intro e; cases e)
  | string _, bool _ => isFalse (by intro e; cases e)
  | string _, tuple _ => isFalse (by intro e; cases e)
  | string _, set _ => isFalse (by intro e; cases e)
  | string _, function _ => isFalse (by intro e; cases e)
  | bool _, number _ => isFalse (by intro e; cases e)
  | bool _, string _ => isFalse (by intro e; cases e)
  | bool _, tuple _ => isFalse (by intro e; cases e)
  | bool _, set _ => isFalse (by intro e; cases e)
  | bool _, function _ => isFalse (by intro e; cases e)
  | tuple _, number _ => isFalse (by intro e; cases e)
  | tuple _, string _ => isFalse (by intro e; cases e)
  | tuple _, bool _ => isFalse (by intro e; cases e)
  | tuple _, set _ => isFalse (by intro e; cases e)
  | tuple _, function _ => isFalse (by intro e; cases e)
  | set _, number _ => isFalse (by intro e; cases e)
  | set _, string _ => isFalse (by intro e; cases e)
  | set _, bool _ => isFalse (by intro e; cases e)
  | set _, tuple _ => isFalse (by intro e; cases e)
  | set _, function _ => isFalse (by intro e; cases e)
  | function _, number _ => isFalse (by intro e; cases e)
  | function _, string _ => isFalse (by intro e; cases e)
  | function _, bool _ => isFalse (by intro e; cases e)
  | function _, tuple _ => isFalse (by intro e; cases e)
  | function _, set _ => isFalse (by intro e; cases e)
/-- Equality of lists of values. -/
def decEqList : (a b : List TLAValue) → Decidable (a = b)
  | [], [] => isTrue rfl
  | [], _ :: _ => isFalse (by intro e; cases e)
  | _ :: _, [] => isFalse (by intro e; cases e)
  | x :: xs, y :: ys =>
    match decEq x y, decEqList xs ys with
    | isTrue h1, isTrue h2 => isTrue (by rw [h1, h2])
    | isFalse h1, _ => isFalse (by intro e; cases e; exact h1 rfl)
    | _, isFalse h2 => isFalse (by intro e; cases e; exact h2 rfl)
/-- Equality of lists of pairs of values. -/
def decEqPairs : (a b : List (TLAValue × TLAValue)) → Decidable (a = b)
  | [], [] => isTrue rfl
  | [], _ :: _ => isFalse (by intro e; cases e)
  | _ :: _, [] => isFalse (by intro e; cases e)
  | (k1, v1) :: xs, (k2, v2) :: ys =>
    match decEq k1 k2, decEq v1 v2, decEqPairs xs ys with
    | isTrue h1, isTrue h2, isTrue h3 => isTrue (by rw [h1, h2, h3])
    | isFalse h1, _, _ => isFalse (by intro e; cases e; exact h1 rfl)
    | _, isFalse h2, _ => isFalse (by intro e; cases e; exact h2 rfl)
    | _, _, isFalse h3 => isFalse (by intro e; cases e; exact h3 rfl)
end

instance : DecidableEq TLAValue := decEq

/-- The Go `tla.MakeTLANumber(int32)`. -/
def MakeTLANumber (n : Int) : TLAValue := number n

/-- The Go `TLAValue.AsNumber()`: the number held, `none` where the Go accessor
panics because the value is of another variant. -/
def AsNumber : TLAValue → Option Int
  | number n => some n
  | _ => none

end TLAValue

open TLAValue (MakeTLANumber AsNumber)

/-! ## 32-bit arithmetic -/

/-- Reduction of an integer to the range of `int32`, as Go addition on `int32` does. -/
def wrapInt32 (x : Int) : Int := (x + 2147483648) % 4294967296 - 2147483648

/-- The values an `int32` can hold. -/
def isInt32 (x : Int) : Prop := -2147483648 ≤ x ∧ x < 2147483648

instance (x : Int) : Decidable (isInt32 x) := by unfold isInt32; infer_instance

/-! ## The persistent map `counters` -/

/-- Lookup in an association list (first match). -/
def getEntries (k : TLAValue) : List (TLAValue × Int) → Option Int
  | [] => none
  | (k1, v1) :: rest => if k1 = k then some v1 else getEntries k rest

/-- Update in an association list: the entry of `k` is replaced where it stands,
a new key is added at the end. -/
def setEntries (k : TLAValue) (v : Int) : List (TLAValue × Int) → List (TLAValue × Int)
  | [] => [(k, v)]
  | (k1, v1) :: rest => if k1 = k then (k, v) :: rest else (k1, v1) :: setEntries k v rest

theorem keys_setEntries (k : TLAValue) (v : Int) (l : List (TLAValue × Int)) :
    (setEntries k v l).map Prod.fst =
      if k ∈ l.map Prod.fst then l.map Prod.fst else l.map Prod.fst ++ [k] := by
  induction l with
  | nil => simp [setEntries]
  | cons e rest ih =>
    obtain ⟨k1, v1⟩ := e
    by_cases h : k1 = k
    · subst h; simp [setEntries]
    · have h2 : ¬ k = k1 := fun e => h e.symm
      simp only [setEntries, h, if_false, List.map_cons, ih, List.mem_cons, h2, false_or]
      split <;> simp

theorem nodup_setEntries (k : TLAValue) (v : Int) (l : List (TLAValue × Int))
    (h : (l.map Prod.fst).Nodup) : ((setEntries k v l).map Prod.fst).Nodup := by
  rw [keys_setEntries]
  split
  · exact h
  · rename_i hk
    rw [List.nodup_append]
    refine ⟨h, List.nodup_singleton k, ?_⟩
    intro a ha hb
    simp only [List.mem_singleton] at hb
    subst hb
    exact hk ha

/-- The Go type `counters` (a wrapped `*immutable.Map` from peer id to `int32`):
the entries in iteration order, no key twice. -/
structure counters where
  entries : List (TLAValue × Int)
  nodup : (entries.map Prod.fst).Nodup

namespace counters

theorem ext_entries {a b : counters} (h : a.entries = b.entries) : a = b := by
  cases a; cases b; cases h; rfl

instance : DecidableEq counters := fun a b =>
  if h : a.entries = b.entries then isTrue (ext_entries h)
  else isFalse (fun e => h (by rw [e]))

/-- The Go `immutable.NewMap(hasher)`: the empty map. -/
def NewMap : counters := ⟨[], List.nodup_nil⟩

/-- The Go `Map.Get(key)`: the value and `ok` as an option. -/
def Get (m : counters) (k : TLAValue) : Option Int := getEntries k m.entries

/-- The Go `Map.Set(key, value)`: a new map, the receiver is not changed. -/
def Set (m : counters) (k : TLAValue) (v : Int) : counters :=
  ⟨setEntries k v m.entries, nodup_setEntries k v m.entries m.nodup⟩

/-- The Go `Map.Iterator()` run to its end: the pairs `it.Next()` yields. -/
def Iterator (m : counters) : List (TLAValue × Int) := m.entries

/-- The Go `Map.Len()`. -/
def Len (m : counters) : Nat := m.entries.length

/-- Two maps hold the same entries (the order of iteration left aside). -/
def Equiv (a b : counters) : Prop := ∀ k, a.Get k = b.Get k

/-- A map built from a literal list of pairs by successive `Set`. -/
def ofList (l : List (TLAValue × Int)) : counters :=
  l.foldl (fun m e => m.Set e.1 e.2) NewMap

end counters

/-! ## The GCounter resource -/

/-- The Go `GCounterState` (without its lock). -/
structure GCounterState where
  oldValue : counters
  value : counters
  hasOldValue : Bool
  mergeQueue : List counters
  deriving DecidableEq

/-- The Go `GCounter`: the fields the resource contract reads and writes.  The
listening address, the peer connections and the close channel belong to the
gossip task and the RPC server. -/
structure GCounter where
  id : TLAValue
  state : GCounterState
  inCriticalSection : Bool
  deriving DecidableEq

/-- The state `GCounterMaker` builds for the resource `id`. -/
def GCounterMaker (id : TLAValue) : GCounter :=
  { id := id
    state := { oldValue := counters.NewMap, value := counters.NewMap,
               hasOldValue := false, mergeQueue := [] }
    inCriticalSection := false }

/-- The Go `ReceiveValueArgs`. -/
structure ReceiveValueArgs where
  Value : counters
  deriving DecidableEq

/-- One turn of the loop of `merge`:
`if v, ok := state.value.Get(id); !ok || v.(int32) > val.(int32)` then
`state.value = counters{state.value.Set(id, val)}`. -/
def mergeStep (value : counters) (e : TLAValue × Int) : counters :=
  match value.Get e.1 with
  | none => value.Set e.1 e.2
  | some v => if v > e.2 then value.Set e.1 e.2 else value

/-- The loop of `merge` on the map alone. -/
def mergeValue (value other : counters) : counters :=
  other.Iterator.foldl mergeStep value

namespace GCounter

/-- The Go `GCounter.merge(other)`. -/
def merge (res : GCounter) (other : counters) : GCounter :=
  { res with state := { res.state with value := mergeValue res.state.value other } }

/-- The Go `GCounter.enterCS()`. -/
def enterCS (res : GCounter) : GCounter :=
  { res with inCriticalSection := true }

/-- The Go `GCounter.exitCSAndMerge()`. -/
def exitCSAndMerge (res : GCounter) : GCounter :=
  let res1 := res.state.mergeQueue.foldl merge res
  { res1 with state := { res1.state with mergeQueue := [] }, inCriticalSection := false }

/-- The Go `GCounter.Abort()`. -/
def Abort (res : GCounter) : GCounter :=
  let res1 := res.exitCSAndMerge
  if res1.state.hasOldValue then
    { res1 with state := { res1.state with value := res1.state.oldValue, hasOldValue := false } }
  else res1

/-- The Go `GCounter.PreCommit()`: returns `nil`, touches nothing. -/
def PreCommit (res : GCounter) : GCounter := res

/-- The Go `GCounter.Commit()`. -/
def Commit (res : GCounter) : GCounter :=
  let res1 := res.exitCSAndMerge
  { res1 with state := { res1.state with hasOldValue := false } }

/-- The sum `ReadValue` computes: `value += v.(int32)` over the iterator. -/
def sumValue (value : counters) : Int :=
  value.Iterator.foldl (fun acc e => wrapInt32 (acc + e.2)) 0

/-- The Go `GCounter.ReadValue()`: the state after the call and the pair
`(value, error)` returned, the error being `nil` on the only return path. -/
def ReadValue (res : GCounter) : GCounter × Except String TLAValue :=
  let res1 := res.enterCS
  (res1, Except.ok (MakeTLANumber (sumValue res1.state.value)))

/-- The Go `GCounter.WriteValue(value)`: `none` where `value.AsNumber()` panics. -/
def WriteValue (res : GCounter) (value : TLAValue) : Option GCounter :=
  let res1 := res.enterCS
  let state := res1.state
  let state1 : GCounterState :=
    if !state.hasOldValue then { state with oldValue := state.value, hasOldValue := true }
    else state
  match AsNumber value with
  | none => none
  | some n => some { res1 with state := { state1 with value := state1.value.Set res.id n } }

/-- The Go `GCounterRPCReceiver.ReceiveValue(args, reply)` on the resource it
serves; it returns `nil`. -/
def ReceiveValue (res : GCounter) (args : ReceiveValueArgs) : GCounter :=
  if !res.inCriticalSection then res.merge args.Value
  else { res with state := { res.state with mergeQueue := res.state.mergeQueue ++ [args.Value] } }

end GCounter

/-! ## Sequences of calls on one resource -/

/-- The calls a GCounter receives: the four calls of the resource contract the
scheduler issues and the inbound RPC. -/
inductive Op where
  | ReadValue
  | WriteValue (value : TLAValue)
  | Commit
  | Abort
  | ReceiveValue (args : ReceiveValueArgs)
  deriving DecidableEq

/-- One call, `none` where the call panics. -/
def Op.apply (res : GCounter) : Op → Option GCounter
  | Op.ReadValue => some res.ReadValue.1
  | Op.WriteValue value => res.WriteValue value
  | Op.Commit => some res.Commit
  | Op.Abort => some res.Abort
  | Op.ReceiveValue args => some (res.ReceiveValue args)

/-- A sequence of calls, one after the other. -/
def runOps (res : GCounter) : List Op → Option GCounter
  | [] => some res
  | op :: rest => (op.apply res).bind (fun res1 => runOps res1 rest)

/-- The call is a `ReadValue` or an inbound `ReceiveValue`. -/
def Op.isReadOrReceive : Op → Bool
  | Op.ReadValue => true
  | Op.ReceiveValue _ => true
  | _ => false

/-- The call can occur inside an attempt: a `ReadValue`, a `WriteValue` of a
number, or an inbound `ReceiveValue`. -/
def Op.inAttempt : Op → Bool
  | Op.ReadValue => true
  | Op.WriteValue (TLAValue.number _) => true
  | Op.ReceiveValue _ => true
  | _ => false

/-- The committed map: `value` outside an attempt that wrote, `oldValue` inside. -/
def GCounter.committed (res : GCounter) : counters :=
  if res.state.hasOldValue then res.state.oldValue else res.state.value

/-- What the test of `merge` makes of the local entry `cur` (absent: `none`)
when the inbound map holds `x` for the same key. -/
def joinEntry (cur : Option Int) (x : Int) : Option Int :=
  match cur with
  | none => some x
  | some v => if v > x then some x else some v

/-- A resource with id `1` whose committed map holds `n` for its own id. -/
def counterHolding (n : Int) : GCounter :=
  { id := TLAValue.number 1
    state := { oldValue := counters.NewMap
               value := counters.ofList [(TLAValue.number 1, n)]
               hasOldValue := false
               mergeQueue := [] }
    inCriticalSection := false }

/-- Inside an attempt that wrote, the snapshot stays what it is. -/
def GCounter.attemptOf (snapshot : counters) (res : GCounter) : Prop :=
  res.state.hasOldValue = true ∧ res.state.oldValue = snapshot ∧ res.inCriticalSection = true

/-- The resource `res` with `q` as its merge queue. -/
def GCounter.withQueue (res : GCounter) (q : List counters) : GCounter :=
  { res with state := { res.state with mergeQueue := q } }

/-! ## The wire format of `ReceiveValue` -/

/-- The Go `KeyVal`. -/
structure KeyVal where
  K : TLAValue
  V : Int
  deriving DecidableEq

/-- What one `Decoder.Decode(&pair)` comes back with: `io.EOF`, another error, or
`nil` with the pair it filled and the input it has not read. -/
inductive DecodeResult where
  | eof
  | error (msg : String)
  | value (pair : KeyVal) (rest : List Nat)
  deriving DecidableEq

/-- The encoder and the decoder of the Go standard package `encoding/gob`, which
the embedding takes as a parameter.  `Encode sent pair` is what
`encoder.Encode(&pair)` appends to the buffer when `sent` values went through the
encoder before (`none`: it returns an error).  `Decode received input destV` is
`decoder.Decode(&pair)` on the unread `input` when `received` values came out
before and the field `V` of `pair` holds `destV` at the call. -/
structure Gob where
  Encode : Nat → KeyVal → Option (List Nat)
  Decode : Nat → List Nat → Int → DecodeResult

/-- The contract of `encoding/gob` the round trip rests on: at the end of the input
`Decode` returns `io.EOF`; the bytes of one `Encode` are read back by the `Decode`
of the same rank whatever follows them; a field holding the zero of its type is
not sent, and `Decode` leaves such a field of its destination as it finds it. -/
structure Gob.Lawful (gob : Gob) : Prop where
  decode_nil : ∀ n destV, gob.Decode n [] destV = DecodeResult.eof
  decode_encode : ∀ n pair bytes rest destV, gob.Encode n pair = some bytes →
    gob.Decode n (bytes ++ rest) destV =
      DecodeResult.value ⟨pair.K, if pair.V = 0 then destV else pair.V⟩ rest

/-- The loop of `GobEncode`: `sent` pairs are in `buf` already, `it` is what the
iterator has left. -/
def GobEncodeLoop (gob : Gob) : Nat → List (TLAValue × Int) → List Nat → Except String (List Nat)
  | _, [], buf => Except.ok buf
  | sent, (k, v) :: it, buf =>
    match gob.Encode sent ⟨k, v⟩ with
    | none => Except.error "gob: encode"
    | some bytes => GobEncodeLoop gob (sent + 1) it (buf ++ bytes)

/-- The Go `ReceiveValueArgs.GobEncode()`. -/
def ReceiveValueArgs.GobEncode (gob : Gob) (arg : ReceiveValueArgs) : Except String (List Nat) :=
  GobEncodeLoop gob 0 arg.Value.Iterator []

/-- The loop `for { ... }` of `GobDecode`, at most `fuel` turns (`none`: the turns
are used up).  Every turn declares a fresh `var pair KeyVal`, whose `V` is 0. -/
def GobDecodeLoop (gob : Gob) : Nat → Nat → List Nat → counters → Option (Except String counters)
  | 0, _, _, _ => none
  | fuel + 1, received, input, b =>
    match gob.Decode received input 0 with
    | DecodeResult.eof => some (Except.ok b)
    | DecodeResult.error msg => some (Except.error msg)
    | DecodeResult.value pair rest => GobDecodeLoop gob fuel (received + 1) rest (b.Set pair.K pair.V)

/-- The Go `ReceiveValueArgs.GobDecode(input)`: the receiver after the call, or
the error returned. -/
def ReceiveValueArgs.GobDecode (gob : Gob) (fuel : Nat) (input : List Nat) :
    Option (Except String ReceiveValueArgs) :=
  (GobDecodeLoop gob fuel 0 input counters.NewMap).map (fun r => r.map ReceiveValueArgs.mk)

/-- A small codec that obeys `Gob.Lawful`, for peer ids that are natural numbers
and counts that are not negative: a pair with count 0 is sent as `[1, k]`, any
other as `[2, k, v]`. -/
def sampleGob : Gob where
  Encode := fun _ pair =>
    match pair.K with
    | TLAValue.number k =>
      if 0 ≤ k ∧ 0 ≤ pair.V then
        some (if pair.V = 0 then [1, k.toNat] else [2, k.toNat, pair.V.toNat])
      else none
    | _ => none
  Decode := fun _ input destV =>
    match input with
    | [] => DecodeResult.eof
    | 1 :: k :: rest => DecodeResult.value ⟨TLAValue.number k, destV⟩ rest
    | 2 :: k :: v :: rest => DecodeResult.value ⟨TLAValue.number k, v⟩ rest
    | _ => DecodeResult.error "gob: bad input"

/-! ## The process-initialization barrier -/

/-- The Go `ProcessInitializationState`, without `connections`.  `readyChan` is
the number of values the channel holds (`make(chan bool, 1)`: at most one). -/
structure ProcessInitializationState where
  Peers : List String
  Self : String
  Coordinator : String
  processesReady : Int
  readyChan : Nat
  setup : Bool
  deriving DecidableEq

/-- The state `NewProcessInitialization(peers, self, coordinator)` builds. -/
def NewProcessInitialization (peers : List String) (self coordinator : String) :
    ProcessInitializationState :=
  { Peers := peers, Self := self, Coordinator := coordinator,
    processesReady := 0, readyChan := 0, setup := false }

/-- The Go `ProcessInitialization.isCoordinator()`. -/
def ProcessInitializationState.isCoordinator (init : ProcessInitializationState) : Bool :=
  decide (init.Self = init.Coordinator)

/-- Where the call of `WaitPeers` in progress on one process stands.  A remote
call blocks its caller until the handler has returned, so the steps of the
handlers `ProcessReady` (run on the state of the coordinator) and `Start` (run on
the state of a peer) are steps of the call of `WaitPeers` that set them off.  The
flag `inProcessReady` of the three locations of `checkBarrier` tells the call
from `ProcessReady` (line 145) from the call from `WaitPeers` (line 68). -/
inductive Loc where
  /-- No call of `WaitPeers` in progress. -/
  | idle
  /-- The call has been made (line 56). -/
  | entered
  /-- After `atomic.AddInt32(&init.processesReady, 1)` (line 63). -/
  | counted
  /-- In `checkBarrier`, before the test of line 93. -/
  | checkBarrier (inProcessReady : Bool)
  /-- In the loop of `checkBarrier` (line 94), `rest` being the peers left. -/
  | starting (inProcessReady : Bool) (rest : List String)
  /-- In `checkBarrier`, before `init.readyChan <- true` (line 110). -/
  | signalling (inProcessReady : Bool)
  /-- At the head of the loop of `helloCoordinator` (line 120). -/
  | helloCoordinator
  /-- In the handler `ProcessReady` on the coordinator, before line 142. -/
  | ProcessReady
  /-- Before `<-init.readyChan` (line 77). -/
  | waiting
  /-- Before `atomic.StoreInt32(&init.processesReady, 0)` (line 82). -/
  | resetting
  deriving DecidableEq

/-- A function changed at one address. -/
def upd {α : Type} (f : String → α) (a : String) (v : α) : String → α :=
  fun x => if x = a then v else f x

/-- The processes of one system: the state of each (by address), where its call of
`WaitPeers` stands, and two counters kept for the statement of the properties:
how often `WaitPeers` was called on it and how often it returned. -/
structure Barrier where
  procs : String → ProcessInitializationState
  loc : String → Loc
  called : String → Nat
  returned : String → Nat

/-- What can happen next in a system. -/
inductive Action where
  /-- The program of process `p` calls `WaitPeers` (it has no other call of
  `WaitPeers` in progress). -/
  | WaitPeers (p : String)
  /-- The call in progress on `p` takes its next step; a dial or a remote call in
  this step succeeds. -/
  | step (p : String)
  /-- The next step of the call in progress on `p` is a dial or a remote call,
  and it fails before it reaches the handler. -/
  | fail (p : String)
  /-- The handler `ProcessReady` that `p` has called on the coordinator is about to
  return `nil`, and the call fails at `p` all the same: `client.Call` returns an
  error after the handler has run (the connection breaks before the reply is
  read). -/
  | failAfter (p : String)
  deriving DecidableEq

/-- Whether the action is a remote call that fails after its handler has run. -/
def Action.afterHandler : Action → Bool
  | Action.failAfter _ => true
  | _ => false

namespace Barrier

/-- Every process built by `NewProcessInitialization` with the same peers and
coordinator, none inside `WaitPeers`. -/
def initial (peers : List String) (coordinator : String) : Barrier :=
  { procs := fun p => NewProcessInitialization peers p coordinator
    loc := fun _ => Loc.idle
    called := fun _ => 0
    returned := fun _ => 0 }

/-- The process whose state `checkBarrier` runs on: the coordinator when the call
comes from the handler `ProcessReady`, the caller of `WaitPeers` itself otherwise. -/
def host (s : Barrier) (p : String) (inProcessReady : Bool) : String :=
  if inProcessReady then (s.procs p).Coordinator else p

/-- The call on `p` moves to the location `l`. -/
def goto (s : Barrier) (p : String) (l : Loc) : Barrier :=
  { s with loc := upd s.loc p l }

/-- The Go `if !init.setup { init.init() }` on the state of process `a`: the flag
is set (and the process starts to serve remote calls). -/
def init (s : Barrier) (a : String) : Barrier :=
  if !(s.procs a).setup then { s with procs := upd s.procs a { s.procs a with setup := true } }
  else s

/-- The Go `atomic.StoreInt32(&init.processesReady, 0)` on the state of process `a`. -/
def storeZero (s : Barrier) (a : String) : Barrier :=
  { s with procs := upd s.procs a { s.procs a with processesReady := 0 } }

/-- The Go `atomic.AddInt32(&init.processesReady, 1)` on the state of process `a`. -/
def addReady (s : Barrier) (a : String) : Barrier :=
  { s with procs := upd s.procs a ({ s.procs a with
      processesReady := wrapInt32 ((s.procs a).processesReady + 1) }) }

/-- The Go `init.readyChan <- true` on the state of process `a`, which blocks
(`none`) while the channel holds a value. -/
def send (s : Barrier) (a : String) : Option Barrier :=
  if (s.procs a).readyChan < 1 then
    some { s with procs := upd s.procs a { s.procs a with readyChan := (s.procs a).readyChan + 1 } }
  else none

/-- The Go `<-init.readyChan` on the state of process `a`, which blocks (`none`)
while the channel is empty. -/
def receive (s : Barrier) (a : String) : Option Barrier :=
  if 0 < (s.procs a).readyChan then
    some { s with procs := upd s.procs a { s.procs a with readyChan := (s.procs a).readyChan - 1 } }
  else none

/-- The call on `p` returns to the program. -/
def ret (s : Barrier) (p : String) : Barrier :=
  { s with loc := upd s.loc p Loc.idle, returned := upd s.returned p (s.returned p + 1) }

/-- The next step of the call of `WaitPeers` in progress on `p`, all dials and
remote calls succeeding; `none` where there is no call in progress or the step
blocks. -/
def stepAt (s : Barrier) (p : String) : Loc → Option Barrier
  | Loc.idle => none
  -- lines 57-63: `init.init()` once, then the process counts itself
  | Loc.entered =>
    some (((s.init p).addReady p).goto p Loc.counted)
  -- line 65: `if init.isCoordinator()`
  | Loc.counted =>
    some (s.goto p (if (s.procs p).isCoordinator then Loc.checkBarrier false
                    else Loc.helloCoordinator))
  -- line 93: `int(atomic.LoadInt32(&init.processesReady)) == len(init.Peers)`;
  -- when it fails `checkBarrier` returns nil and the caller reaches line 77
  | Loc.checkBarrier r =>
    if (s.procs (s.host p r)).processesReady = ((s.procs (s.host p r)).Peers.length : Int) then
      some (s.goto p (Loc.starting r (s.procs (s.host p r)).Peers))
    else some (s.goto p Loc.waiting)
  -- line 94: the loop is over
  | Loc.starting r [] => some (s.goto p (Loc.signalling r))
  -- lines 95-107: skip `Self`; otherwise dial `id` and call `Start`, whose handler
  -- sends on the channel of `id`
  | Loc.starting r (id :: rest) =>
    if id = (s.procs (s.host p r)).Self then some (s.goto p (Loc.starting r rest))
    else (s.send id).map (fun s1 => s1.goto p (Loc.starting r rest))
  -- line 110, then `return nil`: the caller reaches line 77
  | Loc.signalling r => (s.send (s.host p r)).map (fun s1 => s1.goto p Loc.waiting)
  -- lines 121-128: dial the coordinator and call `ProcessReady`
  | Loc.helloCoordinator => some (s.goto p Loc.ProcessReady)
  -- line 142, then line 145
  | Loc.ProcessReady => some ((s.addReady (s.procs p).Coordinator).goto p (Loc.checkBarrier true))
  -- line 77
  | Loc.waiting => (s.receive p).map (fun s1 => s1.goto p Loc.resetting)
  -- lines 82-84
  | Loc.resetting =>
    some ((s.storeZero p).ret p)

/-- The next step of the call in progress on `p` when the dial or the remote call
of this step fails before it reaches the handler, or when the handler `ProcessReady`
returns the error of its `checkBarrier`; `none` where the step has neither.  A call
of `ProcessReady` that fails after its handler has returned `nil` is `failAfterAt`. -/
def failAt (s : Barrier) (p : String) : Loc → Option Barrier
  -- lines 121-123 and 128-130: sleep or not, then `continue`
  | Loc.helloCoordinator => some s
  -- lines 99-101 and 105-107: `checkBarrier` returns the error; `ProcessReady`
  -- hands it to the caller, who goes round its loop (line 129); `WaitPeers`
  -- returns it (line 69)
  | Loc.starting r (id :: _) =>
    if id = (s.procs (s.host p r)).Self then none
    else if r then some (s.goto p Loc.helloCoordinator)
    else some (s.ret p)
  | _ => none

/-- The end of a call of `ProcessReady` that fails at the caller `p` after its
handler has run on the coordinator: the handler has counted the caller (line 142)
and its `checkBarrier` is about to return `nil` (the test of line 93 fails, or the
loop is over and the send of line 110 goes through); `client.Call` returns an error
all the same and the caller goes round the loop of `helloCoordinator` (lines
128-130), which treats every error of the call alike.  `none` where the call in
progress is not at the end of such a handler. -/
def failAfterAt (s : Barrier) (p : String) : Loc → Option Barrier
  -- line 93 fails and line 113 returns nil; the caller gets an error (line 128)
  | Loc.checkBarrier true =>
    if (s.procs (s.host p true)).processesReady
        = ((s.procs (s.host p true)).Peers.length : Int) then none
    else some (s.goto p Loc.helloCoordinator)
  -- line 110, then line 113 returns nil; the caller gets an error (line 128)
  | Loc.signalling true =>
    (s.send (s.host p true)).map (fun s1 => s1.goto p Loc.helloCoordinator)
  | _ => none

/-- One action of the system over `peers`, `none` where it cannot happen. -/
def next (peers : List String) (s : Barrier) : Action → Option Barrier
  | Action.WaitPeers p =>
    if p ∈ peers ∧ s.loc p = Loc.idle then
      some { s with loc := upd s.loc p Loc.entered, called := upd s.called p (s.called p + 1) }
    else none
  | Action.step p => if p ∈ peers then s.stepAt p (s.loc p) else none
  | Action.fail p => if p ∈ peers then s.failAt p (s.loc p) else none
  | Action.failAfter p => if p ∈ peers then s.failAfterAt p (s.loc p) else none

/-- A sequence of actions. -/
def run (peers : List String) (s : Barrier) : List Action → Option Barrier
  | [] => some s
  | a :: rest => (s.next peers a).bind (fun s1 => run peers s1 rest)

end Barrier

/-- One crossing of the barrier by the coordinator `"A"` and the peer `"B"`, up to
the return of `WaitPeers` on `"B"`. -/
def sampleCrossing : List Action :=
  [Action.WaitPeers "A", Action.step "A", Action.step "A", Action.step "A",
   Action.WaitPeers "B", Action.step "B", Action.step "B", Action.fail "B", Action.step "B",
   Action.step "B", Action.step "B", Action.step "B", Action.step "B", Action.step "B",
   Action.step "B", Action.step "B", Action.step "B"]

/-- A run of the coordinator `"A"` and the peer `"B"` of the three processes
`"A"`, `"B"`, `"C"`, in which `"C"` never calls `WaitPeers` and is not reachable.
`"A"` counts itself and waits.  `"B"` calls `ProcessReady`, is counted (the counter
of `"A"` is 2) and the call fails at `"B"` after the handler has run; `"B"` calls
`ProcessReady` again and is counted again (3): the `checkBarrier` of this handler
finds the counter at `len(Peers)`, calls `Start` on `"B"`, fails to dial `"C"` and
returns the error; `"B"` calls `ProcessReady` a third time (4, no release), then
receives the signal of `Start` and returns from `WaitPeers`. -/
def countedTwice : List Action :=
  [Action.WaitPeers "A", Action.step "A", Action.step "A", Action.step "A",
   Action.WaitPeers "B", Action.step "B", Action.step "B", Action.step "B", Action.step "B",
   Action.failAfter "B",
   Action.step "B", Action.step "B", Action.step "B", Action.step "B", Action.step "B",
   Action.fail "B",
   Action.step "B", Action.step "B", Action.step "B", Action.step "B", Action.step "B"]

/-- The locations a call of `WaitPeers` can be at while some process has not yet
called `WaitPeers`; `isCoord` tells whether the caller is the coordinator. -/
def phase1Loc (isCoord : Bool) : Loc → Bool
  | Loc.idle => true
  | Loc.entered => true
  | Loc.counted => true
  | Loc.checkBarrier r => r == !isCoord
  | Loc.helloCoordinator => !isCoord
  | Loc.ProcessReady => !isCoord
  | Loc.waiting => true
  | _ => false

/-- The locations at which the caller has added one to the counter of the
coordinator. -/
def contributed (isCoord : Bool) : Loc → Bool
  | Loc.counted => isCoord
  | Loc.checkBarrier _ => true
  | Loc.waiting => true
  | _ => false

/-- What holds of a system as long as some process has not called `WaitPeers`: no
call has returned, no channel holds a value, and the counter of the coordinator
is at most the number of processes that have added to it. -/
structure Barrier.Phase1 (peers : List String) (coordinator : String) (s : Barrier) : Prop where
  returned : ∀ p, s.returned p = 0
  chan : ∀ p, (s.procs p).readyChan = 0
  locs : ∀ p, phase1Loc (decide (p = coordinator)) (s.loc p) = true
  count : ∃ S : Finset String,
    (∀ p ∈ S, p ∈ peers ∧ contributed (decide (p = coordinator)) (s.loc p) = true) ∧
    (s.procs coordinator).processesReady ≤ (S.card : Int)

/-- The invariant of the system over `peers` with the coordinator `coordinator`,
which every action keeps but `Action.failAfter`. -/
structure Barrier.Inv (peers : List String) (coordinator : String) (s : Barrier) : Prop where
  config : ∀ p, (s.procs p).Peers = peers ∧ (s.procs p).Self = p ∧
    (s.procs p).Coordinator = coordinator
  int32 : ∀ p, isInt32 (s.procs p).processesReady
  called_pos : ∀ p, s.loc p ≠ Loc.idle → 0 < s.called p
  phase1 : ∀ j ∈ peers, s.called j = 0 → Barrier.Phase1 peers coordinator s

/-- What no action changes, what it does to the counters, and that a call in
progress was called. -/
structure Barrier.Frame (s s1 : Barrier) : Prop where
  config : ∀ q, (s1.procs q).Peers = (s.procs q).Peers ∧ (s1.procs q).Self = (s.procs q).Self ∧
    (s1.procs q).Coordinator = (s.procs q).Coordinator
  ready : ∀ q, (s1.procs q).processesReady = (s.procs q).processesReady ∨
    (s1.procs q).processesReady = wrapInt32 ((s.procs q).processesReady + 1) ∨
    (s1.procs q).processesReady = 0
  called : ∀ q, s.called q ≤ s1.called q
  loc : ∀ q, s1.loc q ≠ Loc.idle → s.loc q ≠ Loc.idle ∨ 0 < s1.called q

/-- The payloads of the inbound `ReceiveValue` calls of a sequence, in order. -/
def receivedPayloads : List Op → List counters
  | [] => []
  | Op.ReceiveValue args :: rest => args.Value :: receivedPayloads rest
  | _ :: rest => receivedPayloads rest

/-- Tentative state and queued merges exist only inside a critical section. -/
def GCounter.sectionInv (res : GCounter) : Prop :=
  (res.state.hasOldValue = true → res.inCriticalSection = true) ∧
  (res.state.mergeQueue ≠ [] → res.inCriticalSection = true)

/-- An execution in which the test of `checkBarrier` succeeds twice: the
coordinator `"A"` has counted itself and not yet tested when `ProcessReady` of
`"B"` counts; both calls of `checkBarrier` then read 2 and both call `Start` on
`"B"`.  The list ends with the return of the first `WaitPeers` on `"B"`. -/
def doubleRelease : List Action :=
  [Action.WaitPeers "A", Action.step "A", Action.step "A",
   Action.WaitPeers "B", Action.step "B", Action.step "B", Action.step "B", Action.step "B",
   Action.step "B", Action.step "A", Action.step "B", Action.step "A",
   Action.step "B", Action.step "B", Action.step "B", Action.step "B",
   Action.step "A", Action.step "B"]

/-- A second call of `WaitPeers` on `"B"`, run to its return. -/
def secondCrossing : List Action :=
  [Action.WaitPeers "B", Action.step "B", Action.step "B", Action.step "B", Action.step "B",
   Action.step "B", Action.step "B", Action.step "B"]

/-! ## `checkBarrier` as one sequential run -/

/-- What `checkBarrier` does to the outside, in order. -/
inductive BarrierCall where
  /-- The Go `init.connections.ConnectTo(id)`. -/
  | ConnectTo (id : String)
  /-- The Go `client.Call(RPC_ID+".Start", 0, &ok)` on the connection to `id`. -/
  | Start (id : String)
  /-- The Go `init.readyChan <- true`, once the value is in the channel. -/
  | signal
  deriving DecidableEq

/-- How a run of `checkBarrier` ends. -/
inductive BarrierOutcome where
  /-- It returns the error `err` (`none` for `nil`). -/
  | returned (err : Option String)
  /-- It stays at `init.readyChan <- true` (line 110): the channel, of capacity 1,
  holds a value, and the send does not go through before this value is received. -/
  | blocked
  deriving DecidableEq

/-- The Go `Connections` as `checkBarrier` meets it, a parameter of the
embedding: the error (`none` for `nil`) that a dial and that a call of `Start`
return, which may depend on the calls made before.  Every dial and every call
returns: a call of `Start` whose handler stays at its send on the `readyChan` of
the peer (line 151) is not among the cases of the parameter. -/
structure Connections where
  ConnectTo : List BarrierCall → String → Option String
  Start : List BarrierCall → String → Option String

/-- The loop `for _, id := range init.Peers` of `checkBarrier` (lines 94-108):
`done` are the calls made so far; the result is the calls made and the error
returned from inside the loop, if any. -/
def checkBarrierLoop (init : ProcessInitializationState) (conns : Connections) :
    List String → List BarrierCall → List BarrierCall × Option String
  | [], done => (done, none)
  | id :: rest, done =>
    if id = init.Self then checkBarrierLoop init conns rest done
    else
      match conns.ConnectTo done id with
      | some err => (done ++ [BarrierCall.ConnectTo id], some err)
      | none =>
        match conns.Start (done ++ [BarrierCall.ConnectTo id]) id with
        | some err => (done ++ [BarrierCall.ConnectTo id, BarrierCall.Start id], some err)
        | none =>
          checkBarrierLoop init conns rest (done ++ [BarrierCall.ConnectTo id, BarrierCall.Start id])

/-- The Go `ProcessInitializationState.checkBarrier()`, run with no other
goroutine at work on `init`: the state it leaves, the calls it makes, in order,
and how it ends.  The send of line 110 goes through when `readyChan` holds no
value, and blocks when it holds one. -/
def ProcessInitializationState.checkBarrier (init : ProcessInitializationState)
    (conns : Connections) : ProcessInitializationState × List BarrierCall × BarrierOutcome :=
  if init.processesReady = (init.Peers.length : Int) then
    match checkBarrierLoop init conns init.Peers [] with
    | (calls, some err) => (init, calls, BarrierOutcome.returned (some err))
    | (calls, none) =>
      if init.readyChan < 1 then
        ({ init with readyChan := init.readyChan + 1 }, calls ++ [BarrierCall.signal],
          BarrierOutcome.returned none)
      else (init, calls, BarrierOutcome.blocked)
  else (init, [], BarrierOutcome.returned none)

/-- The Go `ProcessInitializationState.ProcessReady(id, ok)`: the increment of line
142, then `checkBarrier` on the state it gives. -/
def ProcessInitializationState.ProcessReady (self : ProcessInitializationState)
    (conns : Connections) : ProcessInitializationState × List BarrierCall × BarrierOutcome :=
  ProcessInitializationState.checkBarrier
    { self with processesReady := wrapInt32 (self.processesReady + 1) } conns

/-- The calls of a run of `checkBarrier` in which nothing fails: a dial and a
`Start` for each entry of `peers` other than `self`, in order. -/
def startCalls (self : String) (peers : List String) : List BarrierCall :=
  (peers.filter (fun id => decide (id ≠ self))).flatMap
    (fun id => [BarrierCall.ConnectTo id, BarrierCall.Start id])

/-- Connections on which every dial and every call succeeds. -/
def reliable : Connections :=
  { ConnectTo := fun _ _ => none, Start := fun _ _ => none }

/-- Connections on which the dial of `"C"` fails and everything else succeeds. -/
def unreachableC : Connections :=
  { ConnectTo := fun _ id => if id = "C" then some "dial tcp: connection refused" else none
    Start := fun _ _ => none }

/-- A run of the coordinator `"A"` and the peer `"B"` in which `"A"` counts itself
(line 63) and, before it runs the test of its own `checkBarrier` (line 93), the
handler `ProcessReady` of the call of `"B"` counts `"B"`, finds the counter at
`len(Peers)`, calls `Start` on `"B"` and sends on the `readyChan` of `"A"`. -/
def signalledBeforeTest : List Action :=
  [Action.WaitPeers "A", Action.step "A", Action.step "A",
   Action.WaitPeers "B", Action.step "B", Action.step "B", Action.step "B", Action.step "B",
   Action.step "B", Action.step "B", Action.step "B", Action.step "B", Action.step "B"]

/-! ## The gossip task -/

/-- The keys of the Go map `GCounter.peers` (peer id to the `*rpc.Client` held for
it), in iteration order, no key twice. -/
structure peerClients where
  ids : List TLAValue
  nodup : ids.Nodup

/-- The Go `res.peers.Set(id, rpc.NewClient(conn))` for an id the map does not
hold (the only use `tryConnectPeers` makes of `Set`); an id it holds stays. -/
def peerClients.Set (peers : peerClients) (id : TLAValue) : peerClients :=
  if h : id ∈ peers.ids then peers
  else ⟨peers.ids ++ [id], by
    rw [List.nodup_append]
    refine ⟨peers.nodup, List.nodup_singleton id, ?_⟩
    intro a ha hb
    simp only [List.mem_singleton] at hb
    subst hb
    exact h ha⟩

/-- The Go `GCounter` as the goroutine of `runBroadcasts` works on it: the
resource, the fields `peerAddrs` and `peers`, which only this goroutine writes,
and the number of read locks on `state.stateMu` that the goroutine holds. -/
structure Gossip where
  res : GCounter
  peerAddrs : List (TLAValue × String)
  peers : peerClients
  stateRLocks : Nat

namespace Gossip

/-- The loop of `tryConnectPeers` over the iterator of `peerAddrs`: an id without
a client is dialed (`dial id addr` tells whether `net.DialTimeout` succeeds) and,
on success, gets one. -/
def tryConnectLoop (dial : TLAValue → String → Bool) :
    List (TLAValue × String) → peerClients → peerClients
  | [], peers => peers
  | (id, addr) :: rest, peers =>
    if id ∈ peers.ids then tryConnectLoop dial rest peers
    else if dial id addr then tryConnectLoop dial rest (peers.Set id)
    else tryConnectLoop dial rest peers

/-- The Go `GCounter.tryConnectPeers()`. -/
def tryConnectPeers (dial : TLAValue → String → Bool) (g : Gossip) : Gossip :=
  { g with peers := tryConnectLoop dial g.peerAddrs g.peers }

/-- The Go `res.state.stateMu.RLock()` by the goroutine of `runBroadcasts`. -/
def RLock (g : Gossip) : Gossip := { g with stateRLocks := g.stateRLocks + 1 }

/-- The Go `res.state.stateMu.RUnlock()` by the goroutine of `runBroadcasts`. -/
def RUnlock (g : Gossip) : Gossip := { g with stateRLocks := g.stateRLocks - 1 }

/-- One turn of the `default` branch of the loop of `runBroadcasts` (lines
245-283): the state at the end of the turn and the calls
`client.Go("GCounterRPCReceiver.ReceiveValue", args, nil, nil)` issued, each with
the id of the peer it goes to.  Waiting for the calls (lines 270-283) only logs. -/
def tick (dial : TLAValue → String → Bool) (g : Gossip) :
    Gossip × List (TLAValue × ReceiveValueArgs) :=
  let g1 := (g.tryConnectPeers dial).RLock
  if g1.res.state.hasOldValue then
    -- `continue`
    (g1, [])
  else
    let args : ReceiveValueArgs := { Value := g1.res.state.value }
    let calls := g1.peers.ids.map (fun id => (id, args))
    (g1.RUnlock, calls)

end Gossip

/-- A gossip task for the resource `res` with the peers 2 and 3 configured, a
client held for peer 2 and no lock held. -/
def sampleGossip (res : GCounter) : Gossip :=
  { res := res
    peerAddrs := [(TLAValue.number 2, "host2:8000"), (TLAValue.number 3, "host3:8000")]
    peers := (peerClients.mk [] List.nodup_nil).Set (TLAValue.number 2)
    stateRLocks := 0 }

/-! ## The critical section `ACRDTResource.receiveReq` -/

/-- Modelled from the spec: `TLAValue.AsSet()` of package `tla`, which is not
among the sources ("typed accessors that fail with TypeMismatch when the stored
variant is wrong", section 4.1): the elements of a set, `none` where the Go
accessor panics. -/
def TLAValue.AsSet : TLAValue → Option (List TLAValue)
  | TLAValue.set xs => some xs
  | _ => none

/-- Modelled from the spec: `TLAValue.SelectElement(idx)` of package `tla`: the
element of rank `idx` in the iteration of a set, `none` where there is none or
the value is not a set. -/
def TLAValue.SelectElement (v : TLAValue) (idx : Nat) : Option TLAValue :=
  match v.AsSet with
  | some xs => xs.get? idx
  | none => none

/-- Modelled from the spec: `tla.MakeTLASet(elems...)`: the set of the values
given ("set (unordered, deduplicated)", section 3). -/
def MakeTLASet (elems : List TLAValue) : TLAValue := TLAValue.set elems.dedup

/-- Modelled from the spec: `tla.TLA_BackslashSymbol(lhs, rhs)`, the difference of
two sets, `none` where an operand is not a set. -/
def TLA_BackslashSymbol (lhs rhs : TLAValue) : Option TLAValue :=
  match lhs.AsSet, rhs.AsSet with
  | some a, some b => some (TLAValue.set (a.filter (fun x => decide (x ∉ b))))
  | _, _ => none

/-- Modelled from the spec: the error values of package `distsys` (section 7). -/
inductive DistsysError where
  | ErrContextClosed
  | ErrCriticalSectionAborted
  | ErrAssertionFailed
  | ErrDone
  | other (msg : String)
  deriving DecidableEq

/-- The calls a critical-section body makes on its `ArchetypeInterface`. -/
inductive IfaceCall where
  | Read (resource : String) (indices : List TLAValue)
  | Write (resource : String) (indices : List TLAValue) (value : TLAValue)
  | NextFairnessCounter (id : String) (ceiling : Nat)
  | Goto (label : String)
  deriving DecidableEq

/-- The resources behind an `ArchetypeInterface`, a parameter of the embedding:
what a `Read` and a `Write` of the resource of a given name return, which may
depend on the calls made before (`none` for a `nil` error). -/
structure ArchetypeResources where
  Read : List IfaceCall → String → List TLAValue → Except DistsysError TLAValue
  Write : List IfaceCall → String → List TLAValue → TLAValue → Option DistsysError

/-- Modelled from the spec: `distsys.ArchetypeInterface` (section 4.4), which is
not among the sources: the resources it routes to, the fairness counters, the
next label set by `Goto`, and the calls made on it so far.  A resource handle is
the name `RequireArchetypeResource` was given. -/
structure ArchetypeInterface where
  resources : ArchetypeResources
  fairnessCounters : String → Nat
  nextLabel : Option String
  calls : List IfaceCall

namespace ArchetypeInterface

/-- Modelled from the spec: "`Read(resourceHandle, indexPath)` routes to the
resource, recording it as touched". -/
def Read (iface : ArchetypeInterface) (resource : String) (indices : List TLAValue) :
    ArchetypeInterface × Except DistsysError TLAValue :=
  ({ iface with calls := iface.calls ++ [IfaceCall.Read resource indices] },
   iface.resources.Read iface.calls resource indices)

/-- Modelled from the spec: "`Write(resourceHandle, indexPath, Value)` same, marks
dirty". -/
def Write (iface : ArchetypeInterface) (resource : String) (indices : List TLAValue)
    (value : TLAValue) : ArchetypeInterface × Option DistsysError :=
  ({ iface with calls := iface.calls ++ [IfaceCall.Write resource indices value] },
   iface.resources.Write iface.calls resource indices value)

/-- Modelled from the spec: "`NextFairnessCounter(siteId, k)` returns
`(counter[siteId] mod k)`; counter is then incremented".  With `k` equal to 0 the
division panics (`none`). -/
def NextFairnessCounter (iface : ArchetypeInterface) (id : String) (ceiling : Nat) :
    Option (ArchetypeInterface × Nat) :=
  if ceiling = 0 then none
  else some
    ({ iface with
        fairnessCounters := upd iface.fairnessCounters id (iface.fairnessCounters id + 1)
        calls := iface.calls ++ [IfaceCall.NextFairnessCounter id ceiling] },
     iface.fairnessCounters id % ceiling)

/-- Modelled from the spec: "`Goto(label)` sets the next label for this
archetype"; it returns `nil`, on which the scheduler goes on to commit. -/
def Goto (iface : ArchetypeInterface) (label : String) :
    ArchetypeInterface × Option DistsysError :=
  ({ iface with nextLabel := some label, calls := iface.calls ++ [IfaceCall.Goto label] }, none)

end ArchetypeInterface

/-- How a critical-section body ends: it returns an error value (`none` for
`nil`) or it panics. -/
inductive BodyOutcome where
  | returned (err : Option DistsysError)
  | panicked
  deriving DecidableEq

/-- The arm `case 2:` of the body of `ACRDTResource.receiveReq` (lines 383-412):
the interface after the arm, and the outcome where the arm leaves the body
(`none`: it runs to its end, and the body goes on after the `switch`). -/
def receiveReqCase2 (iface : ArchetypeInterface) : ArchetypeInterface × Option BodyOutcome :=
  match iface.Read "ACRDTResource.remainingPeersToUpdate" [] with
  | (iface1, Except.error err) => (iface1, some (BodyOutcome.returned (some err)))
  | (iface1, Except.ok targetRead) =>
    match targetRead.AsSet with
    | none => (iface1, some BodyOutcome.panicked)
    | some elems =>
      if elems.length = 0 then
        (iface1, some (BodyOutcome.returned (some DistsysError.ErrCriticalSectionAborted)))
      else
        match iface1.NextFairnessCounter "ACRDTResource.receiveReq.1" elems.length with
        | none => (iface1, some BodyOutcome.panicked)
        | some (iface2, idx) =>
          match targetRead.SelectElement idx with
          | none => (iface2, some BodyOutcome.panicked)
          | some target =>
            match iface2.Read "ACRDTResource.state" [] with
            | (iface3, Except.error err) => (iface3, some (BodyOutcome.returned (some err)))
            | (iface3, Except.ok exprRead12) =>
              match iface3.Write "ACRDTResource.network" [target] exprRead12 with
              | (iface4, some err) => (iface4, some (BodyOutcome.returned (some err)))
              | (iface4, none) =>
                match iface4.Read "ACRDTResource.remainingPeersToUpdate" [] with
                | (iface5, Except.error err) => (iface5, some (BodyOutcome.returned (some err)))
                | (iface5, Except.ok exprRead13) =>
                  match TLA_BackslashSymbol exprRead13 (MakeTLASet [target]) with
                  | none => (iface5, some BodyOutcome.panicked)
                  | some rest =>
                    match iface5.Write "ACRDTResource.remainingPeersToUpdate" [] rest with
                    | (iface6, some err) => (iface6, some (BodyOutcome.returned (some err)))
                    | (iface6, none) => (iface6, none)

/-- The body of `ACRDTResource.receiveReq` from its `switch` on (line 150), the
handles being resolved: the arms `case 0:` and `case 1:` are parameters, the arm
`case 2:` is `receiveReqCase2`, and an arm that runs to its end is followed by
`return iface.Goto("ACRDTResource.receiveReq")` (line 416). -/
def receiveReq (case0 case1 : ArchetypeInterface → ArchetypeInterface × Option BodyOutcome)
    (iface : ArchetypeInterface) : ArchetypeInterface × BodyOutcome :=
  match iface.NextFairnessCounter "ACRDTResource.receiveReq.0" 3 with
  | none => (iface, BodyOutcome.panicked)
  | some (iface1, alternative) =>
    let arm :=
      if alternative = 0 then case0 iface1
      else if alternative = 1 then case1 iface1
      else if alternative = 2 then receiveReqCase2 iface1
      else (iface1, some BodyOutcome.panicked)
    match arm with
    | (iface2, some outcome) => (iface2, outcome)
    | (iface2, none) =>
      ((iface2.Goto "ACRDTResource.receiveReq").1,
       BodyOutcome.returned (iface2.Goto "ACRDTResource.receiveReq").2)

/-- Resources for the examples: `remainingPeersToUpdate` holds `remaining`,
`state` holds 7, every `Read` succeeds, and a `Write` to `network` returns
`networkErr`. -/
def sampleResources (remaining : TLAValue) (networkErr : Option DistsysError) :
    ArchetypeResources :=
  { Read := fun _ resource _ =>
      if resource = "ACRDTResource.remainingPeersToUpdate" then Except.ok remaining
      else Except.ok (TLAValue.number 7)
    Write := fun _ resource _ _ =>
      if resource = "ACRDTResource.network" then networkErr else none }

/-- An interface over `sampleResources` on which the first fairness counter
stands at 2, so that the `switch` takes `case 2:`. -/
def sampleIface (remaining : TLAValue) (networkErr : Option DistsysError) :
    ArchetypeInterface :=
  { resources := sampleResources remaining networkErr
    fairnessCounters := fun id => if id = "ACRDTResource.receiveReq.0" then 2 else 0
    nextLabel := none
    calls := [] }

/-- An arm that does nothing, for the arms of the `switch` that are not taken. -/
def emptyArm (iface : ArchetypeInterface) : ArchetypeInterface × Option BodyOutcome :=
  (iface, none)

/-- The interface as the arm taken by the `switch` of `receiveReq` finds it: the
first fairness counter has advanced and the call is recorded. -/
def ArchetypeInterface.afterSwitch (iface : ArchetypeInterface) : ArchetypeInterface :=
  { iface with
      fairnessCounters := upd iface.fairnessCounters "ACRDTResource.receiveReq.0"
        (iface.fairnessCounters "ACRDTResource.receiveReq.0" + 1)
      calls := iface.calls ++ [IfaceCall.NextFairnessCounter "ACRDTResource.receiveReq.0" 3] }

/-! ## Lemmas on the map -/

theorem getEntries_setEntries_self (k : TLAValue) (v : Int) (l : List (TLAValue × Int)) :
    getEntries k (setEntries k v l) = some v := by
  induction l with
  | nil => simp [setEntries, getEntries]
  | cons e rest ih =>
    obtain ⟨k1, v1⟩ := e
    by_cases h : k1 = k
    · simp [setEntries, getEntries, h]
    · simp [setEntries, getEntries, h, ih]

theorem getEntries_setEntries_ne (k k2 : TLAValue) (v : Int) (l : List (TLAValue × Int))
    (hne : k2 ≠ k) : getEntries k2 (setEntries k v l) = getEntries k2 l := by
  induction l with
  | nil =>
    have h : ¬ k = k2 := fun e => hne e.symm
    simp [setEntries, getEntries, h]
  | cons e rest ih =>
    obtain ⟨k1, v1⟩ := e
    by_cases h : k1 = k
    · subst h
      have h2 : ¬ k1 = k2 := fun e => hne e.symm
      simp [setEntries, getEntries, h2]
    · by_cases h3 : k1 = k2
      · subst h3
        simp [setEntries, getEntries, h]
      · simp [setEntries, getEntries, h, h3, ih]

theorem getEntries_eq_none_iff (k : TLAValue) (l : List (TLAValue × Int)) :
    getEntries k l = none ↔ k ∉ l.map Prod.fst := by
  induction l with
  | nil => simp [getEntries]
  | cons e rest ih =>
    obtain ⟨k1, v1⟩ := e
    by_cases h : k1 = k
    · simp [getEntries, h]
    · have h2 : ¬ k = k1 := fun e => h e.symm
      simp [getEntries, h, h2, ih]

theorem mem_iff_getEntries (k : TLAValue) (v : Int) (l : List (TLAValue × Int))
    (hl : (l.map Prod.fst).Nodup) : (k, v) ∈ l ↔ getEntries k l = some v := by
  induction l with
  | nil => simp [getEntries]
  | cons e rest ih =>
    obtain ⟨k1, v1⟩ := e
    simp only [List.map_cons, List.nodup_cons] at hl
    by_cases h : k1 = k
    · subst h
      have hnot : (k1, v) ∉ rest := fun hm => hl.1 (List.mem_map_of_mem Prod.fst hm)
      simp only [List.mem_cons, Prod.mk.injEq, true_and, hnot, or_false, getEntries, if_true,
        Option.some.injEq]
      exact eq_comm
    · have h2 : ¬ k = k1 := fun e => h e.symm
      simp [getEntries, h, h2, ih hl.2]

namespace counters

@[simp] theorem Get_NewMap (k : TLAValue) : NewMap.Get k = none := rfl

theorem Get_Set_self (m : counters) (k : TLAValue) (v : Int) : (m.Set k v).Get k = some v :=
  getEntries_setEntries_self k v m.entries

theorem Get_Set_ne (m : counters) (k k2 : TLAValue) (v : Int) (hne : k2 ≠ k) :
    (m.Set k v).Get k2 = m.Get k2 :=
  getEntries_setEntries_ne k k2 v m.entries hne

theorem Get_Set (m : counters) (k k2 : TLAValue) (v : Int) :
    (m.Set k v).Get k2 = if k2 = k then some v else m.Get k2 := by
  by_cases h : k2 = k
  · subst h; simp [Get_Set_self]
  · simp [h, Get_Set_ne m k k2 v h]

theorem Equiv.refl (a : counters) : a.Equiv a := fun _ => rfl

theorem Equiv.symm {a b : counters} (h : a.Equiv b) : b.Equiv a := fun k => (h k).symm

theorem Equiv.trans {a b c : counters} (h1 : a.Equiv b) (h2 : b.Equiv c) : a.Equiv c :=
  fun k => (h1 k).trans (h2 k)

/-- Maps with the same entries iterate over permutations of one list. -/
theorem Equiv.perm {a b : counters} (h : a.Equiv b) : a.entries.Perm b.entries := by
  have ha : a.entries.Nodup := List.Nodup.of_map Prod.fst a.nodup
  have hb : b.entries.Nodup := List.Nodup.of_map Prod.fst b.nodup
  rw [List.perm_ext_iff_of_nodup ha hb]
  rintro ⟨k, v⟩
  rw [mem_iff_getEntries k v a.entries a.nodup, mem_iff_getEntries k v b.entries b.nodup]
  have := h k
  unfold Get at this
  rw [this]

end counters

/-! ## Lemmas on `merge` -/

theorem Get_mergeStep (m : counters) (e : TLAValue × Int) (k : TLAValue) :
    (mergeStep m e).Get k = if k = e.1 then joinEntry (m.Get e.1) e.2 else m.Get k := by
  unfold mergeStep
  cases hg : m.Get e.1 with
  | none =>
    simp only [joinEntry, counters.Get_Set]
  | some v =>
    by_cases hv : v > e.2
    · simp only [hv, if_true, joinEntry, counters.Get_Set]
    · simp only [hv, if_false, joinEntry]
      by_cases hk : k = e.1
      · subst hk; simp [hg]
      · simp [hk]

theorem Get_foldl_mergeStep (l : List (TLAValue × Int)) (hl : (l.map Prod.fst).Nodup)
    (m : counters) (k : TLAValue) :
    (l.foldl mergeStep m).Get k =
      match getEntries k l with
      | none => m.Get k
      | some x => joinEntry (m.Get k) x := by
  induction l generalizing m with
  | nil => simp [getEntries]
  | cons e rest ih =>
    obtain ⟨k1, v1⟩ := e
    simp only [List.map_cons, List.nodup_cons] at hl
    rw [List.foldl_cons, ih hl.2, Get_mergeStep]
    by_cases hk : k1 = k
    · subst hk
      have hnone : getEntries k1 rest = none := (getEntries_eq_none_iff k1 rest).2 hl.1
      simp [getEntries, hnone]
    · have hk2 : ¬ k = k1 := fun e => hk e.symm
      simp [getEntries, hk, hk2]

/-- The entry of `k` after `merge`: untouched where `other` has no entry for `k`,
otherwise the entry of `other` where the local one is absent or greater. -/
theorem Get_mergeValue (m other : counters) (k : TLAValue) :
    (mergeValue m other).Get k =
      match other.Get k with
      | none => m.Get k
      | some x => joinEntry (m.Get k) x :=
  Get_foldl_mergeStep other.entries other.nodup m k

theorem mergeValue_congr {m1 m2 : counters} (h : m1.Equiv m2) (other : counters) :
    (mergeValue m1 other).Equiv (mergeValue m2 other) := by
  intro k
  rw [Get_mergeValue, Get_mergeValue, h k]

theorem joinEntry_comm (cur : Option Int) (x y : Int) :
    (joinEntry cur x).bind (fun c => joinEntry (some c) y) =
      (joinEntry cur y).bind (fun c => joinEntry (some c) x) := by
  cases cur with
  | none =>
    simp only [joinEntry, Option.some_bind]
    split <;> split <;> first | rfl | (congr 1; omega)
  | some v =>
    simp only [joinEntry]
    split <;> split <;> simp only [Option.some_bind, joinEntry] <;>
      split <;> (try split) <;> first | rfl | (congr 1; omega)

theorem joinEntry_isSome (cur : Option Int) (x : Int) :
    ∃ c, joinEntry cur x = some c := by
  cases cur with
  | none => exact ⟨x, rfl⟩
  | some v =>
    simp only [joinEntry]
    split
    · exact ⟨x, rfl⟩
    · exact ⟨v, rfl⟩

/-- Two merges in either order leave the same entries. -/
theorem mergeValue_comm (m a b : counters) :
    (mergeValue (mergeValue m a) b).Equiv (mergeValue (mergeValue m b) a) := by
  intro k
  rw [Get_mergeValue, Get_mergeValue, Get_mergeValue, Get_mergeValue]
  cases ha : a.Get k with
  | none =>
    cases hb : b.Get k with
    | none => rfl
    | some y => rfl
  | some x =>
    cases hb : b.Get k with
    | none => rfl
    | some y =>
      simp only
      have h := joinEntry_comm (m.Get k) x y
      obtain ⟨c, hc⟩ := joinEntry_isSome (m.Get k) x
      obtain ⟨d, hd⟩ := joinEntry_isSome (m.Get k) y
      rw [hc, hd] at h ⊢
      simpa using h

theorem foldl_mergeValue_congr (q : List counters) {m1 m2 : counters} (h : m1.Equiv m2) :
    (q.foldl mergeValue m1).Equiv (q.foldl mergeValue m2) := by
  induction q generalizing m1 m2 with
  | nil => exact h
  | cons a rest ih => exact ih (mergeValue_congr h a)

/-- Merging a queue and a permutation of it leave the same entries. -/
theorem foldl_mergeValue_perm {q1 q2 : List counters} (hp : q1.Perm q2) (m : counters) :
    (q1.foldl mergeValue m).Equiv (q2.foldl mergeValue m) := by
  induction hp generalizing m with
  | nil => exact counters.Equiv.refl _
  | cons a _ ih => exact ih (mergeValue m a)
  | swap a b l =>
    simp only [List.foldl_cons]
    exact foldl_mergeValue_congr l (mergeValue_comm m b a)
  | trans _ _ ih1 ih2 => exact (ih1 m).trans (ih2 m)

theorem foldl_mergeStep_eq_self (l : List (TLAValue × Int)) (m : counters)
    (h : ∀ e ∈ l, ∃ y, m.Get e.1 = some y ∧ y ≤ e.2) : l.foldl mergeStep m = m := by
  induction l with
  | nil => rfl
  | cons e rest ih =>
    obtain ⟨y, hy, hle⟩ := h e (List.mem_cons_self e rest)
    have hstep : mergeStep m e = m := by
      unfold mergeStep
      rw [hy]
      have : ¬ y > e.2 := by omega
      simp [this]
    rw [List.foldl_cons, hstep]
    exact ih (fun e1 he1 => h e1 (List.mem_cons_of_mem e he1))

/-- A merge that brings no smaller entry and no new key changes nothing, not even
the order of iteration. -/
theorem mergeValue_eq_self (m other : counters)
    (h : ∀ k x, other.Get k = some x → ∃ y, m.Get k = some y ∧ y ≤ x) :
    mergeValue m other = m := by
  apply foldl_mergeStep_eq_self
  rintro ⟨k, x⟩ he
  exact h k x ((mem_iff_getEntries k x other.entries other.nodup).1 he)

/-! ## Lemmas on the sum -/

theorem wrapInt32_add_wrapInt32 (a x : Int) :
    wrapInt32 (wrapInt32 a + x) = wrapInt32 (a + x) := by
  unfold wrapInt32; omega

theorem wrapInt32_of_isInt32 (x : Int) (h : isInt32 x) : wrapInt32 x = x := by
  unfold isInt32 at h; unfold wrapInt32; omega

theorem isInt32_wrapInt32 (x : Int) : isInt32 (wrapInt32 x) := by
  unfold isInt32 wrapInt32; omega

theorem foldl_wrap_sum (l : List (TLAValue × Int)) (a : Int) :
    l.foldl (fun acc e => wrapInt32 (acc + e.2)) (wrapInt32 a) =
      wrapInt32 (a + (l.map Prod.snd).sum) := by
  induction l generalizing a with
  | nil => simp
  | cons e rest ih =>
    rw [List.foldl_cons, wrapInt32_add_wrapInt32, ih]
    simp [add_assoc]

/-- The sum of `ReadValue` is the sum of the entries reduced to `int32`. -/
theorem sumValue_eq (value : counters) :
    GCounter.sumValue value = wrapInt32 (value.entries.map Prod.snd).sum := by
  unfold GCounter.sumValue counters.Iterator
  have h := foldl_wrap_sum value.entries 0
  have h0 : wrapInt32 0 = 0 := by decide
  rw [h0, zero_add] at h
  exact h

/-- The sum does not depend on the order of iteration. -/
theorem sumValue_congr {a b : counters} (h : a.Equiv b) :
    GCounter.sumValue a = GCounter.sumValue b := by
  rw [sumValue_eq, sumValue_eq, (h.perm.map Prod.snd).sum_eq]

theorem filter_ne_eq_self (k : TLAValue) (l : List (TLAValue × Int))
    (h : k ∉ l.map Prod.fst) : l.filter (fun e => decide (e.1 ≠ k)) = l := by
  rw [List.filter_eq_self]
  intro e he
  have : e.1 ≠ k := fun hk => h (hk ▸ List.mem_map_of_mem Prod.fst he)
  simpa using this

theorem sum_setEntries (k : TLAValue) (v : Int) (l : List (TLAValue × Int))
    (hl : (l.map Prod.fst).Nodup) :
    ((setEntries k v l).map Prod.snd).sum =
      ((l.filter (fun e => decide (e.1 ≠ k))).map Prod.snd).sum + v := by
  induction l with
  | nil => simp [setEntries]
  | cons e rest ih =>
    obtain ⟨k1, v1⟩ := e
    simp only [List.map_cons, List.nodup_cons] at hl
    by_cases hk : k1 = k
    · subst hk
      have hf := filter_ne_eq_self k1 rest hl.1
      simp only [ne_eq, decide_not] at hf
      simp [setEntries, List.filter_cons, hf, add_comm]
    · simp [setEntries, hk, List.filter_cons, ih hl.2, add_assoc]

/-! ## Lemmas on the calls -/

namespace GCounter

theorem foldl_merge (q : List counters) (res : GCounter) :
    q.foldl merge res =
      { res with state := { res.state with value := q.foldl mergeValue res.state.value } } := by
  induction q generalizing res with
  | nil => rfl
  | cons a rest ih => rw [List.foldl_cons, ih]; rfl

theorem exitCSAndMerge_eq (res : GCounter) :
    res.exitCSAndMerge =
      { id := res.id
        state := { oldValue := res.state.oldValue
                   value := res.state.mergeQueue.foldl mergeValue res.state.value
                   hasOldValue := res.state.hasOldValue
                   mergeQueue := [] }
        inCriticalSection := false } := by
  unfold exitCSAndMerge
  rw [foldl_merge]

theorem Commit_eq (res : GCounter) :
    res.Commit =
      { id := res.id
        state := { oldValue := res.state.oldValue
                   value := res.state.mergeQueue.foldl mergeValue res.state.value
                   hasOldValue := false
                   mergeQueue := [] }
        inCriticalSection := false } := by
  unfold Commit
  rw [exitCSAndMerge_eq]

theorem Abort_eq (res : GCounter) :
    res.Abort =
      { id := res.id
        state := { oldValue := res.state.oldValue
                   value := if res.state.hasOldValue then res.state.oldValue
                            else res.state.mergeQueue.foldl mergeValue res.state.value
                   hasOldValue := false
                   mergeQueue := [] }
        inCriticalSection := false } := by
  unfold Abort
  rw [exitCSAndMerge_eq]
  cases h : res.state.hasOldValue <;> simp [h]

theorem attemptOf_apply (snapshot : counters) (res res1 : GCounter) (op : Op)
    (hop : op.inAttempt = true) (h : attemptOf snapshot res) (hrun : op.apply res = some res1) :
    attemptOf snapshot res1 := by
  obtain ⟨h1, h2, h3⟩ := h
  cases op with
  | ReadValue =>
    simp only [Op.apply, Option.some.injEq] at hrun
    subst hrun
    exact ⟨h1, h2, rfl⟩
  | WriteValue value =>
    cases value with
    | number n =>
      simp only [Op.apply, WriteValue, AsNumber, Option.some.injEq] at hrun
      subst hrun
      simp [attemptOf, enterCS, h1, h2]
    | string s => simp [Op.inAttempt] at hop
    | bool b => simp [Op.inAttempt] at hop
    | tuple xs => simp [Op.inAttempt] at hop
    | set xs => simp [Op.inAttempt] at hop
    | function kvs => simp [Op.inAttempt] at hop
  | Commit => simp [Op.inAttempt] at hop
  | Abort => simp [Op.inAttempt] at hop
  | ReceiveValue args =>
    simp only [Op.apply, Option.some.injEq] at hrun
    subst hrun
    unfold ReceiveValue
    simp [attemptOf, h1, h2, h3]

theorem apply_inAttempt_isSome (res : GCounter) (op : Op) (hop : op.inAttempt = true) :
    ∃ res1, op.apply res = some res1 := by
  cases op with
  | ReadValue => exact ⟨_, rfl⟩
  | WriteValue value =>
    cases value with
    | number n => exact ⟨_, rfl⟩
    | string s => simp [Op.inAttempt] at hop
    | bool b => simp [Op.inAttempt] at hop
    | tuple xs => simp [Op.inAttempt] at hop
    | set xs => simp [Op.inAttempt] at hop
    | function kvs => simp [Op.inAttempt] at hop
  | Commit => simp [Op.inAttempt] at hop
  | Abort => simp [Op.inAttempt] at hop
  | ReceiveValue args => exact ⟨_, rfl⟩

theorem runOps_inAttempt_isSome (ops : List Op) (res : GCounter)
    (hops : ∀ op ∈ ops, op.inAttempt = true) : ∃ res1, runOps res ops = some res1 := by
  induction ops generalizing res with
  | nil => exact ⟨res, rfl⟩
  | cons op rest ih =>
    obtain ⟨r, hr⟩ := apply_inAttempt_isSome res op (hops op (List.mem_cons_self op rest))
    obtain ⟨r2, hr2⟩ := ih r (fun o ho => hops o (List.mem_cons_of_mem op ho))
    exact ⟨r2, by simp [runOps, hr, hr2]⟩

theorem attemptOf_runOps (snapshot : counters) (ops : List Op) (res res1 : GCounter)
    (hops : ∀ op ∈ ops, op.inAttempt = true) (h : attemptOf snapshot res)
    (hrun : runOps res ops = some res1) : attemptOf snapshot res1 := by
  induction ops generalizing res with
  | nil =>
    simp only [runOps, Option.some.injEq] at hrun
    subst hrun; exact h
  | cons op rest ih =>
    simp only [runOps] at hrun
    cases hop : op.apply res with
    | none => rw [hop] at hrun; simp at hrun
    | some r =>
      rw [hop] at hrun
      simp only [Option.some_bind] at hrun
      exact ih r (fun o ho => hops o (List.mem_cons_of_mem op ho))
        (attemptOf_apply snapshot res r op (hops op (List.mem_cons_self op rest)) h hop) hrun

theorem hasOldValue_runOps_noWrite (ops : List Op) (res : GCounter)
    (hops : ∀ op ∈ ops, op.isReadOrReceive = true) :
    ∃ res1, runOps res ops = some res1 ∧ res1.state.hasOldValue = res.state.hasOldValue ∧
      res1.id = res.id := by
  induction ops generalizing res with
  | nil => exact ⟨res, rfl, rfl, rfl⟩
  | cons op rest ih =>
    have hop := hops op (List.mem_cons_self op rest)
    have hrest : ∀ o ∈ rest, o.isReadOrReceive = true :=
      fun o ho => hops o (List.mem_cons_of_mem op ho)
    cases op with
    | ReadValue =>
      obtain ⟨r, hr, h1, h2⟩ := ih res.ReadValue.1 hrest
      exact ⟨r, by simpa [runOps, Op.apply] using hr, h1, h2⟩
    | ReceiveValue args =>
      obtain ⟨r, hr, h1, h2⟩ := ih (res.ReceiveValue args) hrest
      refine ⟨r, by simpa [runOps, Op.apply] using hr, ?_, ?_⟩
      · rw [h1]; unfold ReceiveValue; split <;> rfl
      · rw [h2]; unfold ReceiveValue; split <;> rfl
    | WriteValue value => simp [Op.isReadOrReceive] at hop
    | Commit => simp [Op.isReadOrReceive] at hop
    | Abort => simp [Op.isReadOrReceive] at hop

end GCounter

/-! ## The claims on the GCounter -/

/-- C1, the code at a failing input: a resource that holds 5 for peer 1 and
receives 3 for peer 1 holds 3 after `merge`, where the greater of the two counts
is 5; a resource that holds 3 and receives 5 keeps 3. -/
theorem merge_keeps_smaller_count :
    ((counterHolding 5).merge (counters.ofList [(TLAValue.number 1, 3)])).state.value.Get
        (TLAValue.number 1) = some 3 ∧
    ((counterHolding 3).merge (counters.ofList [(TLAValue.number 1, 5)])).state.value.Get
        (TLAValue.number 1) = some 3 ∧
    max (5 : Int) 3 = 5 := by
  decide

/-- C2, the code at a failing input: a fresh resource with id 1 writes 5 and
commits, so that its committed entry for peer 1 is 5; an inbound `ReceiveValue`
carrying 3 for peer 1 then lowers the committed entry to 3. -/
theorem ReceiveValue_lowers_committed_entry :
    runOps (GCounterMaker (TLAValue.number 1)) [Op.WriteValue (TLAValue.number 5), Op.Commit] =
        some (counterHolding 5) ∧
    (counterHolding 5).committed.Get (TLAValue.number 1) = some 5 ∧
    ((counterHolding 5).ReceiveValue
        ⟨counters.ofList [(TLAValue.number 1, 3)]⟩).committed.Get (TLAValue.number 1) = some 3 := by
  decide

/-- C3: from a state with `hasOldValue` false, let `before` be any calls of
`ReadValue` and `ReceiveValue`, then a `WriteValue` of a number, then any calls of
`ReadValue`, `WriteValue` of numbers and `ReceiveValue`.  All the calls return,
and after `Abort` the map `value` is the map held just before the first write,
`hasOldValue` is false, and `ReadValue` returns what it returned just before the
first write. -/
theorem Abort_restores_snapshot (res : GCounter) (before after : List Op) (n : Int)
    (hold : res.state.hasOldValue = false)
    (hbefore : ∀ op ∈ before, op.isReadOrReceive = true)
    (hafter : ∀ op ∈ after, op.inAttempt = true) :
    ∃ res1 res2, runOps res before = some res1 ∧
      runOps res1 (Op.WriteValue (TLAValue.number n) :: after) = some res2 ∧
      res2.Abort.state.value = res1.state.value ∧
      res2.Abort.state.hasOldValue = false ∧
      res2.Abort.ReadValue.2 = res1.ReadValue.2 := by
  obtain ⟨res1, hrun1, hold1, _⟩ := GCounter.hasOldValue_runOps_noWrite before res hbefore
  rw [hold] at hold1
  have hall : ∀ op ∈ Op.WriteValue (TLAValue.number n) :: after, op.inAttempt = true := by
    intro op hop
    rcases List.mem_cons.1 hop with h | h
    · subst h; rfl
    · exact hafter op h
  obtain ⟨res2, hrun2⟩ := GCounter.runOps_inAttempt_isSome _ res1 hall
  have hrun2c := hrun2
  simp only [runOps, Op.apply, GCounter.WriteValue, AsNumber, Option.some_bind] at hrun2
  have hatt : GCounter.attemptOf res1.state.value res2 := by
    refine GCounter.attemptOf_runOps res1.state.value after _ res2 hafter ?_ hrun2
    simp [GCounter.attemptOf, GCounter.enterCS, hold1]
  obtain ⟨h1, h2, _⟩ := hatt
  have hval : res2.Abort.state.value = res1.state.value := by
    rw [GCounter.Abort_eq]; simp [h1, h2]
  refine ⟨res1, res2, hrun1, hrun2c, hval, ?_, ?_⟩
  · rw [GCounter.Abort_eq]
  · simp only [GCounter.ReadValue, GCounter.enterCS, hval]

/-- C3 at a concrete input: the resource holds 5; a read, a write of 9, an inbound
merge and a write of 12 are aborted. -/
theorem Abort_restores_snapshot_witness :
    ∃ res1 res2, runOps (counterHolding 5) [Op.ReadValue] = some res1 ∧
      runOps res1 (Op.WriteValue (TLAValue.number 9) ::
        [Op.ReceiveValue ⟨counters.ofList [(TLAValue.number 2, 4)]⟩,
         Op.WriteValue (TLAValue.number 12)]) = some res2 ∧
      res2.Abort.state.value = res1.state.value ∧
      res2.Abort.state.hasOldValue = false ∧
      res2.Abort.ReadValue.2 = res1.ReadValue.2 :=
  Abort_restores_snapshot (counterHolding 5) [Op.ReadValue]
    [Op.ReceiveValue ⟨counters.ofList [(TLAValue.number 2, 4)]⟩,
     Op.WriteValue (TLAValue.number 12)] 9 rfl (by decide) (by decide)

/-- C4: `Commit` leaves in `value` the result of merging the maps of `mergeQueue`,
in queue order, into the current `value`; it leaves `mergeQueue` empty,
`hasOldValue` and `inCriticalSection` false, `oldValue` and `id` as they were.
`PreCommit` changes nothing. -/
theorem Commit_drains_mergeQueue (res : GCounter) :
    res.Commit.state.value = res.state.mergeQueue.foldl mergeValue res.state.value ∧
    res.Commit.state.mergeQueue = [] ∧
    res.Commit.state.hasOldValue = false ∧
    res.Commit.inCriticalSection = false ∧
    res.Commit.state.oldValue = res.state.oldValue ∧
    res.Commit.id = res.id ∧
    res.PreCommit = res := by
  rw [GCounter.Commit_eq]
  exact ⟨rfl, rfl, rfl, rfl, rfl, rfl, rfl⟩

/-- C5: outside a critical section `ReceiveValue` merges the payload into `value`
at once and leaves `mergeQueue`, `oldValue` and `hasOldValue` as they were; inside
one it appends the payload at the end of `mergeQueue`, leaves `value`, `oldValue`
and `hasOldValue` as they were, and a `ReadValue` returns the same sum as without
the call. -/
theorem ReceiveValue_merges_or_queues (res : GCounter) (p : counters) :
    (res.inCriticalSection = false →
      (res.ReceiveValue ⟨p⟩).state.value = mergeValue res.state.value p ∧
      (res.ReceiveValue ⟨p⟩).state.mergeQueue = res.state.mergeQueue ∧
      (res.ReceiveValue ⟨p⟩).state.oldValue = res.state.oldValue ∧
      (res.ReceiveValue ⟨p⟩).state.hasOldValue = res.state.hasOldValue ∧
      (res.ReceiveValue ⟨p⟩).inCriticalSection = false) ∧
    (res.inCriticalSection = true →
      (res.ReceiveValue ⟨p⟩).state.mergeQueue = res.state.mergeQueue ++ [p] ∧
      (res.ReceiveValue ⟨p⟩).state.value = res.state.value ∧
      (res.ReceiveValue ⟨p⟩).state.oldValue = res.state.oldValue ∧
      (res.ReceiveValue ⟨p⟩).state.hasOldValue = res.state.hasOldValue ∧
      (res.ReceiveValue ⟨p⟩).inCriticalSection = true ∧
      (res.ReceiveValue ⟨p⟩).ReadValue.2 = res.ReadValue.2) := by
  constructor
  · intro h
    simp [GCounter.ReceiveValue, h, GCounter.merge]
  · intro h
    simp [GCounter.ReceiveValue, h, GCounter.ReadValue, GCounter.enterCS]

/-- C5 at concrete inputs: the resource holding 5 receives 4 for peer 2, once
outside a critical section and once after a `ReadValue` has entered one. -/
theorem ReceiveValue_merges_or_queues_witness :
    ((counterHolding 5).ReceiveValue ⟨counters.ofList [(TLAValue.number 2, 4)]⟩).state.value =
        mergeValue (counterHolding 5).state.value (counters.ofList [(TLAValue.number 2, 4)]) ∧
    ((counterHolding 5).ReadValue.1.ReceiveValue
        ⟨counters.ofList [(TLAValue.number 2, 4)]⟩).ReadValue.2 =
      (counterHolding 5).ReadValue.1.ReadValue.2 :=
  ⟨((ReceiveValue_merges_or_queues (counterHolding 5)
      (counters.ofList [(TLAValue.number 2, 4)])).1 rfl).1,
   ((ReceiveValue_merges_or_queues (counterHolding 5).ReadValue.1
      (counters.ofList [(TLAValue.number 2, 4)])).2 rfl).2.2.2.2.2⟩

/-- C6: two merges applied in either order leave the same entries in `value`
(every key has the same entry, hence `ReadValue` sums to the same number); and
leaving the critical section with a merge queue or with any permutation of it
leaves the same entries. -/
theorem merge_commutes (res : GCounter) (a b : counters) :
    ((res.merge a).merge b).state.value.Equiv ((res.merge b).merge a).state.value ∧
    ((res.merge a).merge b).ReadValue.2 = ((res.merge b).merge a).ReadValue.2 ∧
    ∀ q1 q2 : List counters, q1.Perm q2 →
      (res.withQueue q1).exitCSAndMerge.state.value.Equiv
        (res.withQueue q2).exitCSAndMerge.state.value ∧
      (res.withQueue q1).exitCSAndMerge.ReadValue.2 =
        (res.withQueue q2).exitCSAndMerge.ReadValue.2 := by
  have h1 : ((res.merge a).merge b).state.value.Equiv ((res.merge b).merge a).state.value :=
    mergeValue_comm res.state.value a b
  refine ⟨h1, ?_, ?_⟩
  · simp only [GCounter.ReadValue, GCounter.enterCS, sumValue_congr h1]
  · intro q1 q2 hp
    have h2 : (res.withQueue q1).exitCSAndMerge.state.value.Equiv
        (res.withQueue q2).exitCSAndMerge.state.value := by
      rw [GCounter.exitCSAndMerge_eq, GCounter.exitCSAndMerge_eq]
      exact foldl_mergeValue_perm hp res.state.value
    exact ⟨h2, by simp only [GCounter.ReadValue, GCounter.enterCS, sumValue_congr h2]⟩

/-- C6 at a concrete input: a queue of two maps and the queue reversed. -/
theorem merge_commutes_witness :
    ((counterHolding 5).withQueue
        [counters.ofList [(TLAValue.number 1, 3)],
         counters.ofList [(TLAValue.number 2, 4)]]).exitCSAndMerge.state.value.Equiv
      ((counterHolding 5).withQueue
        [counters.ofList [(TLAValue.number 2, 4)],
         counters.ofList [(TLAValue.number 1, 3)]]).exitCSAndMerge.state.value :=
  ((merge_commutes (counterHolding 5) counters.NewMap counters.NewMap).2.2 _ _
    (List.Perm.swap _ _ [])).1

/-- C7: after `g2` is merged into the first counter and the result into the
second, the two counters hold the same entries; merging either result into itself
or into the other changes nothing. -/
theorem mutual_merge_converges (res1 res2 : GCounter) :
    (res1.merge res2.state.value).state.value.Equiv
      (res2.merge (res1.merge res2.state.value).state.value).state.value ∧
    (res1.merge res2.state.value).merge (res1.merge res2.state.value).state.value =
      res1.merge res2.state.value ∧
    (res2.merge (res1.merge res2.state.value).state.value).merge
        (res2.merge (res1.merge res2.state.value).state.value).state.value =
      res2.merge (res1.merge res2.state.value).state.value ∧
    (res1.merge res2.state.value).merge
        (res2.merge (res1.merge res2.state.value).state.value).state.value =
      res1.merge res2.state.value ∧
    (res2.merge (res1.merge res2.state.value).state.value).merge
        (res1.merge res2.state.value).state.value =
      res2.merge (res1.merge res2.state.value).state.value := by
  have hself : ∀ m : counters, mergeValue m m = m := fun m =>
    mergeValue_eq_self m m (fun k x hx => ⟨x, hx, le_refl x⟩)
  have hequiv : (mergeValue res1.state.value res2.state.value).Equiv
      (mergeValue res2.state.value (mergeValue res1.state.value res2.state.value)) := by
    intro k
    rw [Get_mergeValue res2.state.value, Get_mergeValue res1.state.value]
    cases h2 : res2.state.value.Get k with
    | none =>
      cases h1 : res1.state.value.Get k with
      | none => rfl
      | some y => rfl
    | some x =>
      cases h1 : res1.state.value.Get k with
      | none => simp [joinEntry]
      | some y =>
        simp only [joinEntry]
        split <;> simp only [joinEntry] <;> split <;> first | rfl | (congr 1; omega)
  have hinto : ∀ m1 m2 : counters, m1.Equiv m2 → mergeValue m1 m2 = m1 := fun m1 m2 he =>
    mergeValue_eq_self m1 m2 (fun k x hx => ⟨x, (he k).trans hx, le_refl x⟩)
  refine ⟨hequiv, ?_, ?_, ?_, ?_⟩
  · simp only [GCounter.merge, hself]
  · simp only [GCounter.merge, hself]
  · simp only [GCounter.merge, hinto _ _ hequiv]
  · simp only [GCounter.merge, hinto _ _ hequiv.symm]

/-- C10: `WriteValue` of the number `v` returns; afterwards `value` holds `v` at
the id of the resource and every other key has the entry it had; `oldValue` is
the previous `value` if `hasOldValue` was false and is untouched otherwise;
`hasOldValue` and `inCriticalSection` are true; the merge queue and the id are
untouched; and a `ReadValue` that follows returns the sum, in `int32`, of the
entries of the other peers and `v`. -/
theorem WriteValue_frame (res : GCounter) (v : Int) :
    ∃ res1, res.WriteValue (MakeTLANumber v) = some res1 ∧
      res1.state.value.Get res.id = some v ∧
      (∀ k, k ≠ res.id → res1.state.value.Get k = res.state.value.Get k) ∧
      res1.state.oldValue = (if res.state.hasOldValue then res.state.oldValue
                             else res.state.value) ∧
      res1.state.hasOldValue = true ∧
      res1.inCriticalSection = true ∧
      res1.state.mergeQueue = res.state.mergeQueue ∧
      res1.id = res.id ∧
      res1.ReadValue.1 = res1 ∧
      res1.ReadValue.2 = Except.ok (MakeTLANumber (wrapInt32
        (((res.state.value.Iterator.filter (fun e => decide (e.1 ≠ res.id))).map Prod.snd).sum
          + v))) := by
  have hw : res.WriteValue (MakeTLANumber v) = some
      { id := res.id
        state := { oldValue := if res.state.hasOldValue then res.state.oldValue
                               else res.state.value
                   value := res.state.value.Set res.id v
                   hasOldValue := true
                   mergeQueue := res.state.mergeQueue }
        inCriticalSection := true } := by
    cases h : res.state.hasOldValue <;>
      simp [GCounter.WriteValue, GCounter.enterCS, h, AsNumber, MakeTLANumber]
  refine ⟨_, hw, counters.Get_Set_self _ _ _, fun k hk => counters.Get_Set_ne _ _ _ _ hk,
    rfl, rfl, rfl, rfl, rfl, rfl, ?_⟩
  simp only [GCounter.ReadValue, GCounter.enterCS, sumValue_eq, counters.Set,
    counters.Iterator, sum_setEntries _ _ _ res.state.value.nodup]

/-! ## The wire round trip -/

theorem setEntries_of_not_mem (k : TLAValue) (v : Int) (l : List (TLAValue × Int))
    (h : k ∉ l.map Prod.fst) : setEntries k v l = l ++ [(k, v)] := by
  induction l with
  | nil => rfl
  | cons e rest ih =>
    obtain ⟨k1, v1⟩ := e
    simp only [List.map_cons, List.mem_cons, not_or] at h
    have h1 : ¬ k1 = k := fun e => h.1 e.symm
    simp [setEntries, h1, ih h.2]

/-- The buffer of `GobEncode` only grows at its end. -/
theorem GobEncodeLoop_buf (gob : Gob) (it : List (TLAValue × Int)) (sent : Nat)
    (buf : List Nat) :
    GobEncodeLoop gob sent it buf = (GobEncodeLoop gob sent it []).map (fun t => buf ++ t) := by
  induction it generalizing sent buf with
  | nil => simp [GobEncodeLoop, Except.map]
  | cons e rest ih =>
    obtain ⟨k, v⟩ := e
    simp only [GobEncodeLoop]
    cases gob.Encode sent ⟨k, v⟩ with
    | none => simp [Except.map]
    | some bs =>
      simp only
      rw [ih (sent + 1) (buf ++ bs), ih (sent + 1) ([] ++ bs)]
      cases GobEncodeLoop gob (sent + 1) rest [] with
      | error msg => simp [Except.map]
      | ok t => simp [Except.map]

theorem Gob.Lawful.encode_ne_nil {gob : Gob} (hg : gob.Lawful) (n : Nat) (pair : KeyVal)
    (bytes : List Nat) (h : gob.Encode n pair = some bytes) : bytes ≠ [] := by
  intro hnil
  have h1 := hg.decode_encode n pair bytes [] 0 h
  rw [hnil, List.append_nil, hg.decode_nil] at h1
  cases h1

/-- Decoding what the loop of `GobEncode` wrote sets, from the builder `b` on,
the pairs of the iterator in their order. -/
theorem GobDecodeLoop_GobEncodeLoop (gob : Gob) (hg : gob.Lawful)
    (it : List (TLAValue × Int)) (sent : Nat) (b : counters) (bytes : List Nat) (fuel : Nat)
    (henc : GobEncodeLoop gob sent it [] = Except.ok bytes)
    (hnodup : ((b.entries ++ it).map Prod.fst).Nodup) (hfuel : bytes.length < fuel) :
    ∃ r, GobDecodeLoop gob fuel sent bytes b = some (Except.ok r) ∧
      r.entries = b.entries ++ it := by
  induction it generalizing sent b bytes fuel with
  | nil =>
    simp only [GobEncodeLoop, Except.ok.injEq] at henc
    subst henc
    cases fuel with
    | zero => simp at hfuel
    | succ f => exact ⟨b, by simp [GobDecodeLoop, hg.decode_nil], by simp⟩
  | cons e rest ih =>
    obtain ⟨k, v⟩ := e
    simp only [GobEncodeLoop] at henc
    cases he : gob.Encode sent ⟨k, v⟩ with
    | none => rw [he] at henc; simp at henc
    | some bs =>
      rw [he] at henc
      simp only at henc
      rw [GobEncodeLoop_buf] at henc
      cases ht : GobEncodeLoop gob (sent + 1) rest [] with
      | error msg => rw [ht] at henc; simp [Except.map] at henc
      | ok t =>
        rw [ht] at henc
        simp only [Except.map, List.nil_append, Except.ok.injEq] at henc
        subst henc
        have hne := hg.encode_ne_nil sent ⟨k, v⟩ bs he
        have hlen : 0 < bs.length := List.length_pos.2 hne
        cases fuel with
        | zero => simp at hfuel
        | succ f =>
          have hdec := hg.decode_encode sent ⟨k, v⟩ bs t 0 he
          have hv : (if v = 0 then (0 : Int) else v) = v := by
            split
            · rename_i h0; exact h0.symm
            · rfl
          simp only [hv] at hdec
          have hk : k ∉ b.entries.map Prod.fst := by
            intro hmem
            rw [List.map_append, List.nodup_append] at hnodup
            exact hnodup.2.2 hmem (by simp)
          have hset : (b.Set k v).entries = b.entries ++ [(k, v)] :=
            setEntries_of_not_mem k v b.entries hk
          have hnodup2 : (((b.Set k v).entries ++ rest).map Prod.fst).Nodup := by
            rw [hset, List.append_assoc]; exact hnodup
          have hfuel2 : t.length < f := by
            simp only [List.length_append] at hfuel; omega
          obtain ⟨r, hr, hre⟩ := ih (sent + 1) (b.Set k v) t f ht hnodup2 hfuel2
          refine ⟨r, ?_, ?_⟩
          · simp only [GobDecodeLoop, hdec]
            exact hr
          · rw [hre, hset, List.append_assoc]; rfl

theorem sampleGob_lawful : sampleGob.Lawful := by
  constructor
  · intro n destV; rfl
  · intro n pair bytes rest destV h
    obtain ⟨K, V⟩ := pair
    cases K with
    | number k =>
      simp only [sampleGob] at h
      by_cases hc : 0 ≤ k ∧ 0 ≤ V
      · rw [if_pos hc] at h
        simp only [Option.some.injEq] at h
        subst h
        by_cases hV : V = 0
        · simp [sampleGob, hV, Int.toNat_of_nonneg hc.1]
        · simp [sampleGob, hV, Int.toNat_of_nonneg hc.1, Int.toNat_of_nonneg hc.2]
      · rw [if_neg hc] at h; cases h
    | string s => simp [sampleGob] at h
    | bool b => simp [sampleGob] at h
    | tuple xs => simp [sampleGob] at h
    | set xs => simp [sampleGob] at h
    | function kvs => simp [sampleGob] at h

/-- C9: over an encoder and a decoder that obey the contract of `encoding/gob`,
whenever `GobEncode` returns the bytes of a counters map, `GobDecode` on these
bytes returns no error (within one more turn of its loop than there are bytes)
and leaves a map equal to the one encoded; the empty map and counts equal to 0
are included. -/
theorem GobDecode_GobEncode (gob : Gob) (hg : gob.Lawful) (m : counters) (bytes : List Nat)
    (fuel : Nat) (henc : ReceiveValueArgs.GobEncode gob ⟨m⟩ = Except.ok bytes)
    (hfuel : bytes.length < fuel) :
    ReceiveValueArgs.GobDecode gob fuel bytes = some (Except.ok ⟨m⟩) := by
  obtain ⟨r, hr, hre⟩ := GobDecodeLoop_GobEncodeLoop gob hg m.entries 0 counters.NewMap bytes
    fuel henc (by simpa [counters.NewMap] using m.nodup) hfuel
  have hrm : r = m := counters.ext_entries (by simpa [counters.NewMap] using hre)
  subst hrm
  simp [ReceiveValueArgs.GobDecode, hr, Except.map]

/-- C9 at a concrete input: the map with count 0 for peer 1 and count 7 for peer 2
goes through the sample codec as the bytes `[1, 1, 2, 2, 7]`. -/
theorem GobDecode_GobEncode_witness :
    ReceiveValueArgs.GobEncode sampleGob
        ⟨counters.ofList [(TLAValue.number 1, 0), (TLAValue.number 2, 7)]⟩ =
      Except.ok [1, 1, 2, 2, 7] ∧
    ReceiveValueArgs.GobDecode sampleGob 6 [1, 1, 2, 2, 7] =
      some (Except.ok ⟨counters.ofList [(TLAValue.number 1, 0), (TLAValue.number 2, 7)]⟩) :=
  ⟨rfl,
   GobDecode_GobEncode sampleGob sampleGob_lawful
     (counters.ofList [(TLAValue.number 1, 0), (TLAValue.number 2, 7)]) [1, 1, 2, 2, 7] 6
     rfl (by decide)⟩

/-! ## The barrier: the invariant -/

@[simp] theorem upd_same {α : Type} (f : String → α) (a : String) (v : α) : upd f a v a = v := by
  simp [upd]

theorem upd_ne {α : Type} (f : String → α) (a : String) (v : α) (x : String) (h : x ≠ a) :
    upd f a v x = f x := by
  simp [upd, h]

namespace Barrier

theorem Phase1.counter_lt {peers : List String} {coordinator : String} {s : Barrier}
    (hP : Phase1 peers coordinator s) (hpos : ∀ p, s.loc p ≠ Loc.idle → 0 < s.called p)
    (j : String) (hj : j ∈ peers) (hcalled : s.called j = 0) :
    (s.procs coordinator).processesReady < (peers.length : Int) := by
  obtain ⟨S, hS, hle⟩ := hP.count
  have hsub : S ⊆ peers.toFinset.erase j := by
    intro p hp
    obtain ⟨hpeer, hc⟩ := hS p hp
    rw [Finset.mem_erase]
    refine ⟨?_, List.mem_toFinset.2 hpeer⟩
    intro hpj
    subst hpj
    have hidle : s.loc p = Loc.idle := by
      by_contra hne
      have := hpos p hne
      omega
    rw [hidle] at hc
    simp [contributed] at hc
  have h1 : S.card ≤ (peers.toFinset.erase j).card := Finset.card_le_card hsub
  have h2 : (peers.toFinset.erase j).card < peers.toFinset.card :=
    Finset.card_erase_lt_of_mem (List.mem_toFinset.2 hj)
  have h3 : peers.toFinset.card ≤ peers.length := List.toFinset_card_le peers
  have h4 : (S.card : Int) < (peers.length : Int) := by exact_mod_cast (by omega : S.card < peers.length)
  omega

/-- While some process has not called `WaitPeers`, a step that moves the call on
`p` and leaves the counter of the coordinator alone keeps `Phase1`. -/
theorem Phase1.move {peers : List String} {coordinator : String} {s s1 : Barrier}
    (hP : Phase1 peers coordinator s) (p : String) (l1 : Loc)
    (hret : s1.returned = s.returned)
    (hchan : ∀ q, (s1.procs q).readyChan = (s.procs q).readyChan)
    (hloc : s1.loc = upd s.loc p l1)
    (hl1 : phase1Loc (decide (p = coordinator)) l1 = true)
    (hcount : (s1.procs coordinator).processesReady = (s.procs coordinator).processesReady)
    (hkeep : contributed (decide (p = coordinator)) (s.loc p) = true →
      contributed (decide (p = coordinator)) l1 = true) :
    Phase1 peers coordinator s1 := by
  refine ⟨fun q => by rw [hret]; exact hP.returned q, fun q => by rw [hchan]; exact hP.chan q,
    ?_, ?_⟩
  · intro q
    rw [hloc]
    by_cases hq : q = p
    · subst hq; rw [upd_same]; exact hl1
    · rw [upd_ne _ _ _ _ hq]; exact hP.locs q
  · obtain ⟨S, hS, hle⟩ := hP.count
    refine ⟨S, ?_, by rw [hcount]; exact hle⟩
    intro q hq
    refine ⟨(hS q hq).1, ?_⟩
    rw [hloc]
    by_cases hqp : q = p
    · subst hqp; rw [upd_same]; exact hkeep (hS q hq).2
    · rw [upd_ne _ _ _ _ hqp]; exact (hS q hq).2

/-- While some process has not called `WaitPeers`, a step by which the call on
`p` adds one to the counter of the coordinator keeps `Phase1`. -/
theorem Phase1.add {peers : List String} {coordinator : String} {s s1 : Barrier}
    (hP : Phase1 peers coordinator s) (p : String) (hp : p ∈ peers) (l1 : Loc)
    (hret : s1.returned = s.returned)
    (hchan : ∀ q, (s1.procs q).readyChan = (s.procs q).readyChan)
    (hloc : s1.loc = upd s.loc p l1)
    (hl1 : phase1Loc (decide (p = coordinator)) l1 = true)
    (hcount : (s1.procs coordinator).processesReady ≤ (s.procs coordinator).processesReady + 1)
    (hnot : contributed (decide (p = coordinator)) (s.loc p) = false)
    (hnow : contributed (decide (p = coordinator)) l1 = true) :
    Phase1 peers coordinator s1 := by
  refine ⟨fun q => by rw [hret]; exact hP.returned q, fun q => by rw [hchan]; exact hP.chan q,
    ?_, ?_⟩
  · intro q
    rw [hloc]
    by_cases hq : q = p
    · subst hq; rw [upd_same]; exact hl1
    · rw [upd_ne _ _ _ _ hq]; exact hP.locs q
  · obtain ⟨S, hS, hle⟩ := hP.count
    have hpS : p ∉ S := by
      intro hmem
      have := (hS p hmem).2
      rw [hnot] at this
      cases this
    refine ⟨insert p S, ?_, ?_⟩
    · intro q hq
      rw [hloc]
      rcases Finset.mem_insert.1 hq with hqp | hqS
      · subst hqp; rw [upd_same]; exact ⟨hp, hnow⟩
      · have hqp : q ≠ p := fun e => hpS (e ▸ hqS)
        rw [upd_ne _ _ _ _ hqp]; exact hS q hqS
    · rw [Finset.card_insert_of_not_mem hpS]
      push_cast
      omega

end Barrier

namespace Barrier

theorem send_eq_some {s s1 : Barrier} {a : String} (h : s.send a = some s1) :
    (s.procs a).readyChan = 0 ∧
    s1 = { s with procs := upd s.procs a { s.procs a with readyChan := (s.procs a).readyChan + 1 } } := by
  unfold send at h
  split at h
  · simp only [Option.some.injEq] at h
    exact ⟨by omega, h.symm⟩
  · cases h

theorem receive_eq_some {s s1 : Barrier} {a : String} (h : s.receive a = some s1) :
    0 < (s.procs a).readyChan ∧
    s1 = { s with procs := upd s.procs a { s.procs a with readyChan := (s.procs a).readyChan - 1 } } := by
  unfold receive at h
  split at h
  · simp only [Option.some.injEq] at h
    exact ⟨by assumption, h.symm⟩
  · cases h

theorem Frame.of_procs_loc {s s1 : Barrier}
    (hcfg : ∀ q, (s1.procs q).Peers = (s.procs q).Peers ∧ (s1.procs q).Self = (s.procs q).Self ∧
      (s1.procs q).Coordinator = (s.procs q).Coordinator)
    (hready : ∀ q, (s1.procs q).processesReady = (s.procs q).processesReady ∨
      (s1.procs q).processesReady = wrapInt32 ((s.procs q).processesReady + 1) ∨
      (s1.procs q).processesReady = 0)
    (hcalled : s1.called = s.called) (p : String) (hp : s.loc p ≠ Loc.idle)
    (hloc : ∀ q, q ≠ p → s1.loc q = s.loc q) : Frame s s1 := by
  refine ⟨hcfg, hready, fun q => by rw [hcalled], ?_⟩
  intro q hq
  by_cases hqp : q = p
  · subst hqp; exact Or.inl hp
  · rw [hloc q hqp] at hq; exact Or.inl hq

theorem entered_step (s : Barrier) (p : String) :
    (((s.init p).addReady p).goto p Loc.counted).loc = upd s.loc p Loc.counted ∧
    (((s.init p).addReady p).goto p Loc.counted).called = s.called ∧
    (((s.init p).addReady p).goto p Loc.counted).returned = s.returned ∧
    ∀ q, ((((s.init p).addReady p).goto p Loc.counted).procs q).Peers = (s.procs q).Peers ∧
      ((((s.init p).addReady p).goto p Loc.counted).procs q).Self = (s.procs q).Self ∧
      ((((s.init p).addReady p).goto p Loc.counted).procs q).Coordinator =
        (s.procs q).Coordinator ∧
      ((((s.init p).addReady p).goto p Loc.counted).procs q).readyChan =
        (s.procs q).readyChan ∧
      ((((s.init p).addReady p).goto p Loc.counted).procs q).processesReady =
        if q = p then wrapInt32 ((s.procs p).processesReady + 1)
        else (s.procs q).processesReady := by
  unfold init
  split
  · refine ⟨rfl, rfl, rfl, fun q => ?_⟩
    simp only [goto, addReady, upd]
    split
    · rename_i hq; subst hq; simp
    · simp
  · refine ⟨rfl, rfl, rfl, fun q => ?_⟩
    simp only [goto, addReady, upd]
    split
    · rename_i hq; subst hq; simp
    · simp

theorem stepAt_frame (s s1 : Barrier) (p : String) (hl : s.loc p ≠ Loc.idle)
    (h : s.stepAt p (s.loc p) = some s1) : Frame s s1 := by
  generalize hloc : s.loc p = l at h
  cases l with
  | idle => exact absurd hloc hl
  | entered =>
    simp only [stepAt, Option.some.injEq] at h
    subst h
    obtain ⟨e1, e2, _, e4⟩ := entered_step s p
    refine Frame.of_procs_loc (fun q => ⟨(e4 q).1, (e4 q).2.1, (e4 q).2.2.1⟩) ?_ e2 p hl ?_
    · intro q
      rw [(e4 q).2.2.2.2]
      split
      · rename_i hq; subst hq; exact Or.inr (Or.inl rfl)
      · exact Or.inl rfl
    · intro q hq
      rw [e1, upd_ne _ _ _ _ hq]
  | counted =>
    simp only [stepAt, Option.some.injEq] at h
    subst h
    exact Frame.of_procs_loc (fun q => ⟨rfl, rfl, rfl⟩) (fun q => Or.inl rfl) rfl p hl
      (fun q hq => by simp [goto, upd, hq])
  | checkBarrier r =>
    simp only [stepAt] at h
    split at h <;> simp only [Option.some.injEq] at h <;> subst h <;>
      exact Frame.of_procs_loc (fun q => ⟨rfl, rfl, rfl⟩) (fun q => Or.inl rfl) rfl p hl
        (fun q hq => by simp [goto, upd, hq])
  | starting r rest =>
    cases rest with
    | nil =>
      simp only [stepAt, Option.some.injEq] at h
      subst h
      exact Frame.of_procs_loc (fun q => ⟨rfl, rfl, rfl⟩) (fun q => Or.inl rfl) rfl p hl
        (fun q hq => by simp [goto, upd, hq])
    | cons id rest =>
      simp only [stepAt] at h
      split at h
      · simp only [Option.some.injEq] at h
        subst h
        exact Frame.of_procs_loc (fun q => ⟨rfl, rfl, rfl⟩) (fun q => Or.inl rfl) rfl p hl
          (fun q hq => by simp [goto, upd, hq])
      · cases hs : s.send id with
        | none => rw [hs] at h; cases h
        | some s2 =>
          rw [hs] at h
          simp only [Option.map_some', Option.some.injEq] at h
          subst h
          obtain ⟨_, h2⟩ := send_eq_some hs
          subst h2
          refine Frame.of_procs_loc ?_ ?_ rfl p hl (fun q hq => by simp [goto, upd, hq])
          · intro q
            simp only [goto, upd]
            split
            · rename_i hq; subst hq; simp
            · simp
          · intro q
            simp only [goto, upd]
            split
            · rename_i hq; subst hq; simp
            · simp
  | signalling r =>
    simp only [stepAt] at h
    cases hs : s.send (s.host p r) with
    | none => rw [hs] at h; cases h
    | some s2 =>
      rw [hs] at h
      simp only [Option.map_some', Option.some.injEq] at h
      subst h
      obtain ⟨_, h2⟩ := send_eq_some hs
      subst h2
      refine Frame.of_procs_loc ?_ ?_ rfl p hl (fun q hq => by simp [goto, upd, hq])
      · intro q
        simp only [goto, upd]
        split
        · rename_i hq; subst hq; simp
        · simp
      · intro q
        simp only [goto, upd]
        split
        · rename_i hq; subst hq; simp
        · simp
  | helloCoordinator =>
    simp only [stepAt, Option.some.injEq] at h
    subst h
    exact Frame.of_procs_loc (fun q => ⟨rfl, rfl, rfl⟩) (fun q => Or.inl rfl) rfl p hl
      (fun q hq => by simp [goto, upd, hq])
  | ProcessReady =>
    simp only [stepAt, Option.some.injEq] at h
    subst h
    refine Frame.of_procs_loc ?_ ?_ rfl p hl (fun q hq => by simp [goto, addReady, upd, hq])
    · intro q
      simp only [goto, addReady, upd]
      split
      · rename_i hq; subst hq; simp
      · simp
    · intro q
      simp only [goto, addReady, upd]
      split
      · rename_i hq; subst hq; simp
      · simp
  | waiting =>
    simp only [stepAt] at h
    cases hs : s.receive p with
    | none => rw [hs] at h; cases h
    | some s2 =>
      rw [hs] at h
      simp only [Option.map_some', Option.some.injEq] at h
      subst h
      obtain ⟨_, h2⟩ := receive_eq_some hs
      subst h2
      refine Frame.of_procs_loc ?_ ?_ rfl p hl (fun q hq => by simp [goto, upd, hq])
      · intro q
        simp only [goto, upd]
        split
        · rename_i hq; subst hq; simp
        · simp
      · intro q
        simp only [goto, upd]
        split
        · rename_i hq; subst hq; simp
        · simp
  | resetting =>
    simp only [stepAt, Option.some.injEq] at h
    subst h
    refine Frame.of_procs_loc ?_ ?_ rfl p hl (fun q hq => by simp [ret, storeZero, upd, hq])
    · intro q
      simp only [ret, storeZero, upd]
      split
      · rename_i hq; subst hq; simp
      · simp
    · intro q
      simp only [ret, storeZero, upd]
      split
      · rename_i hq; subst hq; simp
      · simp

end Barrier

namespace Barrier

theorem failAt_frame (s s1 : Barrier) (p : String) (hl : s.loc p ≠ Loc.idle)
    (h : s.failAt p (s.loc p) = some s1) : Frame s s1 := by
  generalize hloc : s.loc p = l at h
  have hrefl : Frame s s := Frame.of_procs_loc (fun q => ⟨rfl, rfl, rfl⟩) (fun q => Or.inl rfl)
    rfl p hl (fun q _ => rfl)
  cases l with
  | helloCoordinator =>
    simp only [failAt, Option.some.injEq] at h
    subst h; exact hrefl
  | starting r rest =>
    cases rest with
    | nil => simp [failAt] at h
    | cons id rest =>
      simp only [failAt] at h
      split at h
      · cases h
      · split at h <;> simp only [Option.some.injEq] at h <;> subst h
        · exact Frame.of_procs_loc (fun q => ⟨rfl, rfl, rfl⟩) (fun q => Or.inl rfl) rfl p hl
            (fun q hq => by simp [goto, upd, hq])
        · exact Frame.of_procs_loc (fun q => ⟨rfl, rfl, rfl⟩) (fun q => Or.inl rfl) rfl p hl
            (fun q hq => by simp [ret, upd, hq])
  | idle => simp [failAt] at h
  | entered => simp [failAt] at h
  | counted => simp [failAt] at h
  | checkBarrier r => simp [failAt] at h
  | signalling r => simp [failAt] at h
  | ProcessReady => simp [failAt] at h
  | waiting => simp [failAt] at h
  | resetting => simp [failAt] at h

theorem failAfterAt_frame (s s1 : Barrier) (p : String) (hl : s.loc p ≠ Loc.idle)
    (h : s.failAfterAt p (s.loc p) = some s1) : Frame s s1 := by
  generalize hloc : s.loc p = l at h
  cases l with
  | checkBarrier r =>
    cases r with
    | false => simp [failAfterAt] at h
    | true =>
      simp only [failAfterAt] at h
      split at h
      · cases h
      · simp only [Option.some.injEq] at h
        subst h
        exact Frame.of_procs_loc (fun q => ⟨rfl, rfl, rfl⟩) (fun q => Or.inl rfl) rfl p hl
          (fun q hq => by simp [goto, upd, hq])
  | signalling r =>
    cases r with
    | false => simp [failAfterAt] at h
    | true =>
      simp only [failAfterAt] at h
      cases hs : s.send (s.host p true) with
      | none => rw [hs] at h; cases h
      | some s2 =>
        rw [hs] at h
        simp only [Option.map_some', Option.some.injEq] at h
        subst h
        obtain ⟨_, h2⟩ := send_eq_some hs
        subst h2
        refine Frame.of_procs_loc ?_ ?_ rfl p hl (fun q hq => by simp [goto, upd, hq])
        · intro q
          simp only [goto, upd]
          split
          · rename_i hq; subst hq; simp
          · simp
        · intro q
          simp only [goto, upd]
          split
          · rename_i hq; subst hq; simp
          · simp
  | idle => simp [failAfterAt] at h
  | entered => simp [failAfterAt] at h
  | counted => simp [failAfterAt] at h
  | starting r rest => simp [failAfterAt] at h
  | helloCoordinator => simp [failAfterAt] at h
  | ProcessReady => simp [failAfterAt] at h
  | waiting => simp [failAfterAt] at h
  | resetting => simp [failAfterAt] at h

theorem stepAt_idle (s : Barrier) (p : String) : s.stepAt p Loc.idle = none := rfl

theorem failAt_idle (s : Barrier) (p : String) : s.failAt p Loc.idle = none := rfl

theorem next_frame (peers : List String) (s s1 : Barrier) (a : Action)
    (h : s.next peers a = some s1) : Frame s s1 := by
  cases a with
  | WaitPeers p =>
    simp only [next] at h
    split at h
    · simp only [Option.some.injEq] at h
      subst h
      refine ⟨fun q => ⟨rfl, rfl, rfl⟩, fun q => Or.inl rfl, ?_, ?_⟩
      · intro q
        simp only [upd]
        split
        · rename_i hq; subst hq; omega
        · exact le_refl _
      · intro q hq
        by_cases hqp : q = p
        · subst hqp; right; simp [upd]
        · left; simpa [upd, hqp] using hq
    · cases h
  | step p =>
    simp only [next] at h
    split at h
    · have hl : s.loc p ≠ Loc.idle := by
        intro hidle
        rw [hidle, stepAt_idle] at h
        cases h
      exact stepAt_frame s s1 p hl h
    · cases h
  | fail p =>
    simp only [next] at h
    split at h
    · have hl : s.loc p ≠ Loc.idle := by
        intro hidle
        rw [hidle, failAt_idle] at h
        cases h
      exact failAt_frame s s1 p hl h
    · cases h
  | failAfter p =>
    simp only [next] at h
    split at h
    · have hl : s.loc p ≠ Loc.idle := by
        intro hidle
        rw [hidle] at h
        simp [failAfterAt] at h
      exact failAfterAt_frame s s1 p hl h
    · cases h

theorem wrapInt32_succ_le (x : Int) (h : isInt32 x) : wrapInt32 (x + 1) ≤ x + 1 := by
  unfold isInt32 at h; unfold wrapInt32; omega

theorem Phase1.of_next {peers : List String} {coordinator : String} {s s1 : Barrier}
    (hI : Inv peers coordinator s) (a : Action) (ha : a.afterHandler = false)
    (h : s.next peers a = some s1)
    (j : String) (hj : j ∈ peers) (hcalled : s1.called j = 0) :
    Phase1 peers coordinator s1 := by
  have hcalled0 : s.called j = 0 := by
    have := (next_frame peers s s1 a h).called j
    omega
  have hP := hI.phase1 j hj hcalled0
  have hlt := hP.counter_lt hI.called_pos j hj hcalled0
  cases a with
  | WaitPeers p =>
    simp only [Barrier.next] at h
    split at h
    · rename_i hc
      simp only [Option.some.injEq] at h
      subst h
      exact hP.move p Loc.entered rfl (fun _ => rfl) rfl rfl rfl
        (by rw [hc.2]; intro hx; simp [contributed] at hx)
    · cases h
  | step p =>
    simp only [Barrier.next] at h
    split at h
    · rename_i hp
      have hlocs := hP.locs p
      have hcfg := hI.config p
      generalize hloc : s.loc p = l at h hlocs
      cases l with
      | idle => cases h
      | entered =>
        simp only [stepAt, Option.some.injEq] at h
        subst h
        obtain ⟨e1, _, e3, e4⟩ := entered_step s p
        by_cases hpc : p = coordinator
        · subst hpc
          refine hP.add p hp Loc.counted e3 (fun q => (e4 q).2.2.2.1) e1 rfl ?_ ?_ ?_
          · rw [(e4 p).2.2.2.2, if_pos rfl]
            exact wrapInt32_succ_le _ (hI.int32 p)
          · rw [hloc]; rfl
          · simp [contributed]
        · refine hP.move p Loc.counted e3 (fun q => (e4 q).2.2.2.1) e1 rfl ?_ ?_
          · have hcp : ¬ coordinator = p := fun e => hpc e.symm
            rw [(e4 coordinator).2.2.2.2, if_neg hcp]
          · rw [hloc]; intro hx; simp [contributed] at hx
      | counted =>
        simp only [stepAt, Option.some.injEq] at h
        subst h
        have hco : (s.procs p).isCoordinator = decide (p = coordinator) := by
          simp [ProcessInitializationState.isCoordinator, hcfg.2.1, hcfg.2.2]
        refine hP.move p _ rfl (fun _ => rfl) rfl ?_ rfl ?_
        · rw [hco]
          by_cases hpc : p = coordinator <;> simp [hpc, phase1Loc]
        · rw [hco, hloc]
          by_cases hpc : p = coordinator <;> simp [hpc, contributed]
      | checkBarrier r =>
        have hhost : s.host p r = coordinator := by
          simp only [phase1Loc, beq_iff_eq] at hlocs
          unfold host
          by_cases hpc : p = coordinator
          · simp [hpc] at hlocs
            simp [hlocs, hpc]
          · simp [hpc] at hlocs
            simp [hlocs, hcfg.2.2]
        simp only [stepAt, hhost, (hI.config coordinator).1] at h
        have hne : ¬ (s.procs coordinator).processesReady = (peers.length : Int) := by omega
        rw [if_neg hne] at h
        simp only [Option.some.injEq] at h
        subst h
        exact hP.move p Loc.waiting rfl (fun _ => rfl) rfl rfl rfl (fun _ => rfl)
      | starting r rest => simp [phase1Loc] at hlocs
      | signalling r => simp [phase1Loc] at hlocs
      | helloCoordinator =>
        simp only [stepAt, Option.some.injEq] at h
        subst h
        refine hP.move p Loc.ProcessReady rfl (fun _ => rfl) rfl ?_ rfl ?_
        · simpa [phase1Loc] using hlocs
        · rw [hloc]; intro hx; simp [contributed] at hx
      | ProcessReady =>
        simp only [stepAt, Option.some.injEq, hcfg.2.2] at h
        subst h
        refine hP.add p hp (Loc.checkBarrier true) rfl ?_ ?_ ?_ ?_ ?_ rfl
        · intro q
          simp only [goto, addReady, upd]
          split
          · rename_i hq; subst hq; simp
          · simp
        · rfl
        · simpa [phase1Loc] using hlocs
        · simp only [goto, addReady, upd, if_true]
          exact wrapInt32_succ_le _ (hI.int32 coordinator)
        · rw [hloc]; rfl
      | waiting =>
        simp only [stepAt] at h
        cases hs : s.receive p with
        | none => rw [hs] at h; cases h
        | some s2 =>
          have := (receive_eq_some hs).1
          have := hP.chan p
          omega
      | resetting => simp [phase1Loc] at hlocs
    · cases h
  | fail p =>
    simp only [Barrier.next] at h
    split at h
    · have hlocs := hP.locs p
      generalize hloc : s.loc p = l at h hlocs
      cases l with
      | helloCoordinator =>
        simp only [failAt, Option.some.injEq] at h
        subst h; exact hP
      | starting r rest => simp [phase1Loc] at hlocs
      | idle => simp [failAt] at h
      | entered => simp [failAt] at h
      | counted => simp [failAt] at h
      | checkBarrier r => simp [failAt] at h
      | signalling r => simp [failAt] at h
      | ProcessReady => simp [failAt] at h
      | waiting => simp [failAt] at h
      | resetting => simp [failAt] at h
    · cases h
  | failAfter p => simp [Action.afterHandler] at ha

theorem Inv.holds_initial (peers : List String) (coordinator : String) :
    Inv peers coordinator (Barrier.initial peers coordinator) := by
  refine ⟨fun p => ⟨rfl, rfl, rfl⟩, fun p => (by decide : isInt32 0), fun p hp => absurd rfl hp, ?_⟩
  intro j _ _
  refine ⟨fun p => rfl, fun p => rfl, fun p => rfl, ⟨∅, ?_, ?_⟩⟩
  · intro p hp; simp at hp
  · simp [Barrier.initial, NewProcessInitialization]

theorem Inv.after_next {peers : List String} {coordinator : String} {s s1 : Barrier}
    (hI : Inv peers coordinator s) (a : Action) (ha : a.afterHandler = false)
    (h : s.next peers a = some s1) :
    Inv peers coordinator s1 := by
  have hF := next_frame peers s s1 a h
  refine ⟨?_, ?_, ?_, fun j hj hc => Phase1.of_next hI a ha h j hj hc⟩
  · intro p
    obtain ⟨h1, h2, h3⟩ := hF.config p
    obtain ⟨g1, g2, g3⟩ := hI.config p
    exact ⟨h1.trans g1, h2.trans g2, h3.trans g3⟩
  · intro p
    rcases hF.ready p with hr | hr | hr
    · rw [hr]; exact hI.int32 p
    · rw [hr]; exact isInt32_wrapInt32 _
    · rw [hr]; exact (by decide : isInt32 0)
  · intro p hp
    rcases hF.loc p hp with h1 | h1
    · have := hI.called_pos p h1
      have := hF.called p
      omega
    · exact h1

theorem Inv.after_run {peers : List String} {coordinator : String} (acts : List Action)
    (hacts : ∀ a ∈ acts, a.afterHandler = false)
    {s s1 : Barrier} (hI : Inv peers coordinator s) (h : s.run peers acts = some s1) :
    Inv peers coordinator s1 := by
  induction acts generalizing s with
  | nil =>
    simp only [Barrier.run, Option.some.injEq] at h
    subst h; exact hI
  | cons a rest ih =>
    simp only [Barrier.run] at h
    cases hn : s.next peers a with
    | none => rw [hn] at h; cases h
    | some s2 =>
      rw [hn] at h
      exact ih (fun b hb => hacts b (List.mem_cons_of_mem a hb))
        (hI.after_next a (hacts a (List.mem_cons_self a rest)) hn) h

end Barrier

/-! ## The claim on the barrier -/

/-- As long as no remote call fails after its handler has run, `WaitPeers` keeps
the barrier: in every execution of the system of the processes `peers` with one
coordinator, from the state `NewProcessInitialization` builds, in which dials and
remote calls fail at will before they reach the handler but none fails after its
handler has run, when a call of `WaitPeers` has returned on some process (with
`nil` or with an error) then `WaitPeers` has been called on every process of
`peers`. -/
theorem returns_after_all_called_of_no_failAfter (peers : List String) (coordinator : String)
    (acts : List Action) (hacts : ∀ a ∈ acts, a.afterHandler = false) (s : Barrier)
    (hrun : (Barrier.initial peers coordinator).run peers acts = some s)
    (p : String) (hret : 0 < s.returned p) :
    ∀ q ∈ peers, 0 < s.called q := by
  intro q hq
  have hI := Barrier.Inv.after_run acts hacts (Barrier.Inv.holds_initial peers coordinator) hrun
  by_contra hcalled
  have hP := hI.phase1 q hq (by omega)
  have := hP.returned p
  omega

/-- The lemma above at a concrete execution: the coordinator `"A"` and the peer
`"B"` cross the barrier once; `WaitPeers` returns on `"B"` and both have called
it. -/
theorem returns_after_all_called_of_no_failAfter_sample :
    ((Barrier.initial ["A", "B"] "A").run ["A", "B"] sampleCrossing).map
        (fun s => s.returned "B") = some 1 ∧
    ∀ s, (Barrier.initial ["A", "B"] "A").run ["A", "B"] sampleCrossing = some s →
      ∀ q ∈ ["A", "B"], 0 < s.called q :=
  ⟨by decide, fun s hs =>
    returns_after_all_called_of_no_failAfter ["A", "B"] "A" sampleCrossing (by decide) s hs "B" (by
      have h1 : ((Barrier.initial ["A", "B"] "A").run ["A", "B"] sampleCrossing).map
          (fun s => s.returned "B") = some 1 := by decide
      rw [hs] at h1
      simp only [Option.map_some', Option.some.injEq] at h1
      omega)⟩

/-- C8: the code does not keep the barrier when a call of `ProcessReady` fails at
the caller after its handler has run.  In the run `countedTwice` of three
processes, `helloCoordinator` repeats the call (lines 128-130) and `ProcessReady`
counts the caller each time (line 142): the counter of the coordinator `"A"`
reaches `len(Peers)` = 3 although `"C"` has not called `WaitPeers`, `"B"` is
released, and at the end `WaitPeers` has returned once on `"B"`, has never been
called on `"C"`, and the counter of `"A"` stands at 4. -/
theorem WaitPeers_returns_before_all_called :
    ((Barrier.initial ["A", "B", "C"] "A").run ["A", "B", "C"] countedTwice).map
        (fun s => (s.returned "B", s.called "C", (s.procs "A").processesReady,
          (s.procs "A").Peers.length))
      = some (1, 0, 4, 3) := by
  decide

/-! ## More claims on the GCounter -/

/-- C11: `ReadValue` returns no error and the TLA number of the sum of the
entries of `value` reduced to `int32` (whatever the order of iteration), which is
0 for the empty map and lies in the range of `int32`; the state after the call is
the state before with `inCriticalSection` set. -/
theorem ReadValue_sums_entries (res : GCounter) :
    res.ReadValue.2 =
      Except.ok (MakeTLANumber (wrapInt32 (res.state.value.Iterator.map Prod.snd).sum)) ∧
    isInt32 (wrapInt32 (res.state.value.Iterator.map Prod.snd).sum) ∧
    (res.state.value = counters.NewMap → res.ReadValue.2 = Except.ok (MakeTLANumber 0)) ∧
    res.ReadValue.1 = { res with inCriticalSection := true } ∧
    res.ReadValue.1.state = res.state ∧
    res.ReadValue.1.id = res.id ∧
    res.ReadValue.1.inCriticalSection = true := by
  have h1 : res.ReadValue.2 =
      Except.ok (MakeTLANumber (wrapInt32 (res.state.value.Iterator.map Prod.snd).sum)) := by
    simp only [GCounter.ReadValue, GCounter.enterCS, sumValue_eq, counters.Iterator]
  refine ⟨h1, isInt32_wrapInt32 _, ?_, rfl, rfl, rfl, rfl⟩
  intro hnew
  rw [h1, hnew]
  rfl

/-- C12: on a state with `hasOldValue` false and an empty merge queue, `Commit`
and `Abort` leave `value`, `oldValue`, `hasOldValue`, `mergeQueue` and the id as
they are (and clear `inCriticalSection`); on every state, a second `Commit` after
a `Commit` and a second `Abort` after an `Abort` change nothing. -/
theorem terminal_calls_idempotent (res : GCounter) :
    (res.state.hasOldValue = false → res.state.mergeQueue = [] →
      res.Commit.state = res.state ∧ res.Abort.state = res.state ∧
      res.Commit.id = res.id ∧ res.Abort.id = res.id ∧
      res.Commit.inCriticalSection = false ∧ res.Abort.inCriticalSection = false) ∧
    res.Commit.Commit = res.Commit ∧
    res.Abort.Abort = res.Abort := by
  refine ⟨?_, ?_, ?_⟩
  · intro hold hq
    rw [GCounter.Commit_eq, GCounter.Abort_eq]
    obtain ⟨id, ⟨oldValue, value, hasOldValue, mergeQueue⟩, inCS⟩ := res
    simp only at hold hq
    subst hold hq
    simp
  · rw [GCounter.Commit_eq res.Commit, GCounter.Commit_eq res]
    rfl
  · rw [GCounter.Abort_eq res.Abort, GCounter.Abort_eq res]
    simp

/-- C12 at a concrete input: the resource holding 5, with nothing tentative. -/
theorem terminal_calls_idempotent_witness :
    (counterHolding 5).Commit.state = (counterHolding 5).state ∧
    (counterHolding 5).Abort.state = (counterHolding 5).state ∧
    (counterHolding 5).Commit.id = (counterHolding 5).id ∧
    (counterHolding 5).Abort.id = (counterHolding 5).id ∧
    (counterHolding 5).Commit.inCriticalSection = false ∧
    (counterHolding 5).Abort.inCriticalSection = false :=
  (terminal_calls_idempotent (counterHolding 5)).1 rfl rfl

namespace GCounter

theorem sectionInv_GCounterMaker (id : TLAValue) : (GCounterMaker id).sectionInv := by
  constructor
  · intro h; cases h
  · intro h; exact absurd rfl h

theorem sectionInv_apply (res res1 : GCounter) (op : Op) (h : res.sectionInv)
    (hrun : op.apply res = some res1) : res1.sectionInv := by
  cases op with
  | ReadValue =>
    simp only [Op.apply, Option.some.injEq] at hrun
    subst hrun
    exact ⟨fun _ => rfl, fun _ => rfl⟩
  | WriteValue value =>
    simp only [Op.apply, WriteValue] at hrun
    cases hv : AsNumber value with
    | none => rw [hv] at hrun; cases hrun
    | some n =>
      rw [hv] at hrun
      simp only [Option.some.injEq] at hrun
      subst hrun
      exact ⟨fun _ => rfl, fun _ => rfl⟩
  | Commit =>
    simp only [Op.apply, Option.some.injEq] at hrun
    subst hrun
    simp [sectionInv, Commit_eq]
  | Abort =>
    simp only [Op.apply, Option.some.injEq] at hrun
    subst hrun
    simp [sectionInv, Abort_eq]
  | ReceiveValue args =>
    simp only [Op.apply, Option.some.injEq] at hrun
    subst hrun
    unfold ReceiveValue
    cases hcs : res.inCriticalSection with
    | true => exact ⟨fun _ => by simp [hcs], fun _ => by simp [hcs]⟩
    | false =>
      simp only [Bool.not_false, if_true]
      refine ⟨fun hx => ?_, fun hx => ?_⟩
      · have := h.1 hx
        rw [hcs] at this; cases this
      · have := h.2 hx
        rw [hcs] at this; cases this

theorem sectionInv_runOps (ops : List Op) (res res1 : GCounter) (h : res.sectionInv)
    (hrun : runOps res ops = some res1) : res1.sectionInv := by
  induction ops generalizing res with
  | nil =>
    simp only [runOps, Option.some.injEq] at hrun
    subst hrun; exact h
  | cons op rest ih =>
    simp only [runOps] at hrun
    cases hop : op.apply res with
    | none => rw [hop] at hrun; cases hrun
    | some r =>
      rw [hop] at hrun
      exact ih r (sectionInv_apply res r op h hop) hrun

/-- An attempt that starts with a write and is aborted leaves the map held before
the write. -/
theorem abort_after_write (res1 : GCounter) (hold : res1.state.hasOldValue = false)
    (n : Int) (after : List Op) (hafter : ∀ op ∈ after, op.inAttempt = true) :
    ∃ res2, runOps res1 (Op.WriteValue (TLAValue.number n) :: after) = some res2 ∧
      res2.Abort.state.value = res1.state.value := by
  have hall : ∀ op ∈ Op.WriteValue (TLAValue.number n) :: after, op.inAttempt = true := by
    intro op hop
    rcases List.mem_cons.1 hop with h | h
    · subst h; rfl
    · exact hafter op h
  obtain ⟨res2, hrun2⟩ := runOps_inAttempt_isSome _ res1 hall
  have hrun2c := hrun2
  simp only [runOps, Op.apply, WriteValue, AsNumber, Option.some_bind] at hrun2
  have hatt : attemptOf res1.state.value res2 := by
    refine attemptOf_runOps res1.state.value after _ res2 hafter ?_ hrun2
    simp [attemptOf, enterCS, hold]
  obtain ⟨h1, h2, _⟩ := hatt
  exact ⟨res2, hrun2c, by rw [Abort_eq]; simp [h1, h2]⟩

/-- What `Abort` or `Commit` would leave in `value` when nothing is tentative. -/
theorem drained_apply_noWrite (res : GCounter) (op : Op) (hop : op.isReadOrReceive = true)
    (hinv : res.sectionInv) :
    ∃ res1, op.apply res = some res1 ∧
      res1.state.hasOldValue = res.state.hasOldValue ∧
      res1.state.mergeQueue.foldl mergeValue res1.state.value =
        (receivedPayloads [op]).foldl mergeValue
          (res.state.mergeQueue.foldl mergeValue res.state.value) := by
  cases op with
  | ReadValue => exact ⟨_, rfl, rfl, rfl⟩
  | ReceiveValue args =>
    refine ⟨_, rfl, ?_, ?_⟩
    · unfold ReceiveValue; split <;> rfl
    · unfold ReceiveValue
      cases hcs : res.inCriticalSection with
      | true => simp [receivedPayloads, List.foldl_append]
      | false =>
        have hq : res.state.mergeQueue = [] := by
          by_contra hne
          have := hinv.2 hne
          rw [hcs] at this; cases this
        simp [receivedPayloads, merge, hq]
  | WriteValue value => simp [Op.isReadOrReceive] at hop
  | Commit => simp [Op.isReadOrReceive] at hop
  | Abort => simp [Op.isReadOrReceive] at hop

theorem receivedPayloads_cons_noWrite (op : Op) (rest : List Op) :
    receivedPayloads (op :: rest) = receivedPayloads [op] ++ receivedPayloads rest := by
  cases op <;> simp [receivedPayloads]

theorem drained_runOps_noWrite (ops : List Op) (res : GCounter)
    (hops : ∀ op ∈ ops, op.isReadOrReceive = true) (hinv : res.sectionInv) :
    ∃ res1, runOps res ops = some res1 ∧
      res1.state.hasOldValue = res.state.hasOldValue ∧
      res1.state.mergeQueue.foldl mergeValue res1.state.value =
        (receivedPayloads ops).foldl mergeValue
          (res.state.mergeQueue.foldl mergeValue res.state.value) := by
  induction ops generalizing res with
  | nil => exact ⟨res, rfl, rfl, rfl⟩
  | cons op rest ih =>
    obtain ⟨r, hr, hh, hv⟩ := drained_apply_noWrite res op
      (hops op (List.mem_cons_self op rest)) hinv
    obtain ⟨r2, hr2, hh2, hv2⟩ := ih r (fun o ho => hops o (List.mem_cons_of_mem op ho))
      (sectionInv_apply res r op hinv hr)
    refine ⟨r2, by simp [runOps, hr, hr2], hh2.trans hh, ?_⟩
    rw [receivedPayloads_cons_noWrite op rest, List.foldl_append, ← hv, ← hv2]

end GCounter

/-- C17, the code at a failing input: the resource holding 5 for peer 1 writes 9
and then, inside the critical section, receives 4 for peer 2, which is queued.
After `Abort` the map `value` has no entry for peer 2, where merging the queued
map into the committed map gives 4; after `Commit` the entry is there. -/
theorem Abort_drops_queued_merge :
    (runOps (counterHolding 5)
        [Op.WriteValue (TLAValue.number 9),
         Op.ReceiveValue ⟨counters.ofList [(TLAValue.number 2, 4)]⟩]).map
      (fun res =>
        (res.inCriticalSection, res.state.mergeQueue, res.committed,
         res.Abort.state.value.Get (TLAValue.number 2),
         (res.state.mergeQueue.foldl mergeValue res.committed).Get (TLAValue.number 2),
         res.Commit.state.value.Get (TLAValue.number 2))) =
      some (true, [counters.ofList [(TLAValue.number 2, 4)]],
        counters.ofList [(TLAValue.number 1, 5)], none, some 4, some 4) := by
  rfl

/-- C19: in every state reached from a fresh GCounter by calls of `ReadValue`,
`WriteValue`, `Commit`, `Abort` and `ReceiveValue`, `hasOldValue` implies
`inCriticalSection` and a non-empty merge queue implies `inCriticalSection`.
Hence, when `ReceiveValue` merges at once, `hasOldValue` is false before and
after, the map merged into is the committed one, an `Abort` right after keeps the
merged map, an attempt with a write that is aborted ends with the merged map, and
an attempt without a write that is aborted ends with the merged map with the
payloads received meanwhile merged into it. -/
theorem tentative_state_only_in_section (id : TLAValue) (ops : List Op) (res : GCounter)
    (hrun : runOps (GCounterMaker id) ops = some res) :
    (res.state.hasOldValue = true → res.inCriticalSection = true) ∧
    (res.state.mergeQueue ≠ [] → res.inCriticalSection = true) ∧
    (res.inCriticalSection = false → ∀ args : ReceiveValueArgs,
      res.state.hasOldValue = false ∧
      res.committed = res.state.value ∧
      (res.ReceiveValue args).state.value = mergeValue res.state.value args.Value ∧
      (res.ReceiveValue args).state.hasOldValue = false ∧
      (res.ReceiveValue args).Abort.state.value = mergeValue res.state.value args.Value ∧
      (∀ (n : Int) (after : List Op), (∀ op ∈ after, op.inAttempt = true) →
        ∃ res2, runOps (res.ReceiveValue args) (Op.WriteValue (TLAValue.number n) :: after) =
            some res2 ∧
          res2.Abort.state.value = mergeValue res.state.value args.Value) ∧
      (∀ after : List Op, (∀ op ∈ after, op.isReadOrReceive = true) →
        ∃ res2, runOps (res.ReceiveValue args) after = some res2 ∧
          res2.Abort.state.value =
            (receivedPayloads after).foldl mergeValue
              (mergeValue res.state.value args.Value))) := by
  have hinv := GCounter.sectionInv_runOps ops _ res (GCounter.sectionInv_GCounterMaker id) hrun
  refine ⟨hinv.1, hinv.2, ?_⟩
  intro hcs args
  have hold : res.state.hasOldValue = false := by
    cases h : res.state.hasOldValue with
    | false => rfl
    | true => have := hinv.1 h; rw [hcs] at this; cases this
  have hq : res.state.mergeQueue = [] := by
    by_contra hne
    have := hinv.2 hne
    rw [hcs] at this; cases this
  have hrecv : res.ReceiveValue args = res.merge args.Value := by
    simp [GCounter.ReceiveValue, hcs]
  have hinv2 : (res.ReceiveValue args).sectionInv :=
    GCounter.sectionInv_apply res _ (Op.ReceiveValue args) hinv rfl
  have hold2 : (res.ReceiveValue args).state.hasOldValue = false := by rw [hrecv]; exact hold
  have hq2 : (res.ReceiveValue args).state.mergeQueue = [] := by rw [hrecv]; exact hq
  have hval2 : (res.ReceiveValue args).state.value = mergeValue res.state.value args.Value := by
    rw [hrecv]; rfl
  refine ⟨hold, by simp [GCounter.committed, hold], hval2, hold2, ?_, ?_, ?_⟩
  · rw [GCounter.Abort_eq]
    simp [hold2, hq2, hval2]
  · intro n after hafter
    obtain ⟨res2, h1, h2⟩ := GCounter.abort_after_write (res.ReceiveValue args) hold2 n after hafter
    exact ⟨res2, h1, by rw [h2, hval2]⟩
  · intro after hafter
    obtain ⟨res2, h1, h2, h3⟩ := GCounter.drained_runOps_noWrite after (res.ReceiveValue args)
      hafter hinv2
    refine ⟨res2, h1, ?_⟩
    rw [GCounter.Abort_eq]
    have hold3 : res2.state.hasOldValue = false := by rw [h2]; exact hold2
    simp only [hold3, Bool.false_eq_true, if_false]
    rw [h3, hq2, hval2]
    rfl

/-- C19 at a concrete input: a fresh resource writes 5 and commits, which leaves
it outside a critical section. -/
theorem tentative_state_only_in_section_witness :
    ∃ res, runOps (GCounterMaker (TLAValue.number 1))
        [Op.WriteValue (TLAValue.number 5), Op.Commit] = some res ∧
      (res.state.hasOldValue = true → res.inCriticalSection = true) ∧
      (res.state.mergeQueue ≠ [] → res.inCriticalSection = true) ∧
      (res.ReceiveValue ⟨counters.ofList [(TLAValue.number 2, 4)]⟩).Abort.state.value =
        mergeValue res.state.value (counters.ofList [(TLAValue.number 2, 4)]) :=
  ⟨counterHolding 5, by decide,
   (tentative_state_only_in_section (TLAValue.number 1)
      [Op.WriteValue (TLAValue.number 5), Op.Commit] (counterHolding 5) (by decide)).1,
   (tentative_state_only_in_section (TLAValue.number 1)
      [Op.WriteValue (TLAValue.number 5), Op.Commit] (counterHolding 5) (by decide)).2.1,
   ((tentative_state_only_in_section (TLAValue.number 1)
      [Op.WriteValue (TLAValue.number 5), Op.Commit] (counterHolding 5) (by decide)).2.2 rfl
        ⟨counters.ofList [(TLAValue.number 2, 4)]⟩).2.2.2.2.1⟩

/-! ## More claims on the barrier -/

theorem startCalls_nil (self : String) : startCalls self [] = [] := rfl

theorem startCalls_cons (self id : String) (rest : List String) :
    startCalls self (id :: rest) =
      if id = self then startCalls self rest
      else BarrierCall.ConnectTo id :: BarrierCall.Start id :: startCalls self rest := by
  unfold startCalls
  by_cases h : id = self
  · simp [List.filter_cons, h]
  · simp [List.filter_cons, h]

theorem count_Start_startCalls (self id : String) (peers : List String) :
    (startCalls self peers).count (BarrierCall.Start id) =
      if id = self then 0 else peers.count id := by
  induction peers with
  | nil => simp [startCalls_nil]
  | cons p rest ih =>
    rw [startCalls_cons]
    by_cases hp : p = self
    · subst hp
      rw [if_pos rfl, ih]
      by_cases hid : id = p
      · simp [hid]
      · have : ¬ p = id := fun e => hid e.symm
        simp [hid, List.count_cons, this]
    · rw [if_neg hp, List.count_cons, List.count_cons, ih]
      by_cases hid : id = self
      · subst hid
        have : ¬ p = id := hp
        simp [List.count_cons, this]
      · by_cases hpi : p = id
        · subst hpi; simp [hid, List.count_cons]
        · have : ¬ id = p := fun e => hpi e.symm
          simp [hid, List.count_cons, hpi, this]

theorem checkBarrierLoop_ok (init : ProcessInitializationState) (conns : Connections)
    (hdial : ∀ h id, conns.ConnectTo h id = none) (hcall : ∀ h id, conns.Start h id = none)
    (rest : List String) (done : List BarrierCall) :
    checkBarrierLoop init conns rest done = (done ++ startCalls init.Self rest, none) := by
  induction rest generalizing done with
  | nil => simp [checkBarrierLoop, startCalls_nil]
  | cons id rest ih =>
    rw [startCalls_cons]
    by_cases h : id = init.Self
    · simp only [checkBarrierLoop, h, if_true]
      exact ih done
    · simp only [checkBarrierLoop, h, if_false, hdial, hcall]
      rw [ih]
      simp

theorem startCalls_append (self : String) (a b : List String) :
    startCalls self (a ++ b) = startCalls self a ++ startCalls self b := by
  simp [startCalls, List.filter_append, List.flatMap_append]

theorem checkBarrierLoop_append (init : ProcessInitializationState) (conns : Connections)
    (before rest : List String) (done : List BarrierCall)
    (hok : ∀ h x, x ∈ before → conns.ConnectTo h x = none ∧ conns.Start h x = none) :
    checkBarrierLoop init conns (before ++ rest) done =
      checkBarrierLoop init conns rest (done ++ startCalls init.Self before) := by
  induction before generalizing done with
  | nil => simp [startCalls_nil]
  | cons id before ih =>
    have hrest : ∀ h x, x ∈ before → conns.ConnectTo h x = none ∧ conns.Start h x = none :=
      fun h x hx => hok h x (List.mem_cons_of_mem id hx)
    rw [startCalls_cons, List.cons_append]
    by_cases h : id = init.Self
    · simp only [checkBarrierLoop, h, if_true]
      exact ih done hrest
    · simp only [checkBarrierLoop, h, if_false, (hok _ id (List.mem_cons_self id before)).1,
        (hok _ id (List.mem_cons_self id before)).2]
      rw [ih _ hrest]
      simp

theorem checkBarrierLoop_err (init : ProcessInitializationState) (conns : Connections)
    (rest : List String) (done calls : List BarrierCall) (err : String)
    (h : checkBarrierLoop init conns rest done = (calls, some err))
    (hdone : BarrierCall.signal ∉ done) :
    BarrierCall.signal ∉ calls ∧
    ((∃ pre id, calls = pre ++ [BarrierCall.ConnectTo id] ∧
        conns.ConnectTo pre id = some err) ∨
     (∃ pre id, calls = pre ++ [BarrierCall.ConnectTo id, BarrierCall.Start id] ∧
        conns.Start (pre ++ [BarrierCall.ConnectTo id]) id = some err)) := by
  induction rest generalizing done with
  | nil => simp [checkBarrierLoop] at h
  | cons id rest ih =>
    simp only [checkBarrierLoop] at h
    split at h
    · exact ih done h hdone
    · cases hd : conns.ConnectTo done id with
      | some e =>
        rw [hd] at h
        simp only [Prod.mk.injEq, Option.some.injEq] at h
        obtain ⟨h1, h2⟩ := h
        subst h1 h2
        exact ⟨by simp [hdone], Or.inl ⟨done, id, rfl, hd⟩⟩
      | none =>
        rw [hd] at h
        simp only at h
        cases hs : conns.Start (done ++ [BarrierCall.ConnectTo id]) id with
        | some e =>
          rw [hs] at h
          simp only [Prod.mk.injEq, Option.some.injEq] at h
          obtain ⟨h1, h2⟩ := h
          subst h1 h2
          exact ⟨by simp [hdone], Or.inr ⟨done, id, rfl, hs⟩⟩
        | none =>
          rw [hs] at h
          simp only at h
          exact ih _ h (by simp [hdone])

/-- C14 as worded fails when `readyChan` holds a value.  The run
`signalledBeforeTest` brings the coordinator `"A"` of the peers `"A"`, `"B"` to the
test of its own `checkBarrier` with `processesReady` = 2 = `len(Peers)` and with a
value in its `readyChan`; from this state, with every dial and call succeeding,
`checkBarrier` dials `"B"` and calls `Start` on it, and then blocks at the send on
`readyChan`: it puts no signal on the channel and does not return. -/
theorem checkBarrier_blocks_on_full_readyChan :
    ((Barrier.initial ["A", "B"] "A").run ["A", "B"] signalledBeforeTest).map
        (fun s => (s.loc "A", s.procs "A"))
      = some (Loc.checkBarrier false,
          { NewProcessInitialization ["A", "B"] "A" "A" with
            processesReady := 2, readyChan := 1, setup := true }) ∧
    ({ NewProcessInitialization ["A", "B"] "A" "A" with
        processesReady := 2, readyChan := 1, setup := true }
      : ProcessInitializationState).checkBarrier reliable
      = ({ NewProcessInitialization ["A", "B"] "A" "A" with
            processesReady := 2, readyChan := 1, setup := true },
         [BarrierCall.ConnectTo "B", BarrierCall.Start "B"], BarrierOutcome.blocked) := by
  decide

/-- C14, amended: when `processesReady` equals `len(Peers)` and every dial and call
succeeds, `checkBarrier` dials and calls `Start` on each entry of `Peers` other
than `Self`, in the order of `Peers` (as often as the entry occurs, never on
`Self`), and then, its `readyChan` holding no value, puts one value on its own
`readyChan` and returns `nil`, while with a value in its `readyChan` it blocks at
this send, after the same calls, and leaves the channel as it is; when
`processesReady` differs from `len(Peers)` it makes no call, sends nothing and
returns `nil`; when the dials and calls for the entries before some entry
succeed and the dial, or the call of `Start`, for this entry fails, it returns
the error of this dial or call right after it; and whenever it returns an error,
this is the error of the dial or of the call of `Start` it made last, and it has
not sent on its `readyChan`, which is as before. -/
theorem checkBarrier_releases_at_N_on_empty_readyChan
    (init : ProcessInitializationState) (conns : Connections) :
    (init.processesReady = (init.Peers.length : Int) →
      (∀ h id, conns.ConnectTo h id = none) → (∀ h id, conns.Start h id = none) →
      (init.readyChan = 0 →
        init.checkBarrier conns =
          ({ init with readyChan := 1 },
           startCalls init.Self init.Peers ++ [BarrierCall.signal],
           BarrierOutcome.returned none)) ∧
      (0 < init.readyChan →
        init.checkBarrier conns =
          (init, startCalls init.Self init.Peers, BarrierOutcome.blocked)) ∧
      ∀ id, (startCalls init.Self init.Peers).count (BarrierCall.Start id) =
        if id = init.Self then 0 else init.Peers.count id) ∧
    (init.processesReady ≠ (init.Peers.length : Int) →
      init.checkBarrier conns = (init, [], BarrierOutcome.returned none)) ∧
    (∀ (before after : List String) (id err : String),
      init.processesReady = (init.Peers.length : Int) →
      init.Peers = before ++ id :: after → id ≠ init.Self →
      (∀ h x, x ∈ before → conns.ConnectTo h x = none ∧ conns.Start h x = none) →
      (conns.ConnectTo (startCalls init.Self before) id = some err →
        init.checkBarrier conns =
          (init, startCalls init.Self before ++ [BarrierCall.ConnectTo id],
           BarrierOutcome.returned (some err))) ∧
      (conns.ConnectTo (startCalls init.Self before) id = none →
        conns.Start (startCalls init.Self before ++ [BarrierCall.ConnectTo id]) id = some err →
        init.checkBarrier conns =
          (init, startCalls init.Self before ++ [BarrierCall.ConnectTo id, BarrierCall.Start id],
           BarrierOutcome.returned (some err)))) ∧
    (∀ err, (init.checkBarrier conns).2.2 = BarrierOutcome.returned (some err) →
      (init.checkBarrier conns).1 = init ∧
      BarrierCall.signal ∉ (init.checkBarrier conns).2.1 ∧
      ((∃ pre id, (init.checkBarrier conns).2.1 = pre ++ [BarrierCall.ConnectTo id] ∧
          conns.ConnectTo pre id = some err) ∨
       (∃ pre id, (init.checkBarrier conns).2.1 =
            pre ++ [BarrierCall.ConnectTo id, BarrierCall.Start id] ∧
          conns.Start (pre ++ [BarrierCall.ConnectTo id]) id = some err))) := by
  refine ⟨?_, ?_, ?_, ?_⟩
  · intro hN hdial hcall
    refine ⟨?_, ?_, fun id => count_Start_startCalls init.Self id init.Peers⟩
    · intro hempty
      unfold ProcessInitializationState.checkBarrier
      rw [if_pos hN, checkBarrierLoop_ok init conns hdial hcall]
      simp [hempty]
    · intro hfull
      unfold ProcessInitializationState.checkBarrier
      rw [if_pos hN, checkBarrierLoop_ok init conns hdial hcall]
      have : ¬ init.readyChan < 1 := by omega
      simp [this]
  · intro hN
    unfold ProcessInitializationState.checkBarrier
    rw [if_neg hN]
  · intro before after id err hN hpeers hid hok
    unfold ProcessInitializationState.checkBarrier
    rw [if_pos hN, hpeers, checkBarrierLoop_append init conns before (id :: after) [] hok]
    simp only [List.nil_append, checkBarrierLoop, hid, if_false]
    constructor
    · intro hd
      rw [hd]
    · intro hd hs
      rw [hd]
      simp only
      rw [hs]
  · intro err herr
    unfold ProcessInitializationState.checkBarrier at herr ⊢
    split at herr
    · rename_i hN
      rw [if_pos hN]
      cases hloop : checkBarrierLoop init conns init.Peers [] with
      | mk calls r =>
        rw [hloop] at herr
        cases r with
        | none =>
          simp only at herr
          split at herr <;> simp at herr
        | some e =>
          simp only [BarrierOutcome.returned.injEq, Option.some.injEq] at herr
          subst herr
          exact ⟨rfl, checkBarrierLoop_err init conns init.Peers [] calls e hloop (by simp)⟩
    · simp at herr

/-- C14, amended, at concrete inputs: the coordinator `"A"` of three peers with its
counter at 3, over connections that all work, with its `readyChan` empty and with
a value in it, and over connections on which the dial of `"C"` fails; and with
its counter at 2. -/
theorem checkBarrier_releases_at_N_on_empty_readyChan_witness :
    ({ NewProcessInitialization ["A", "B", "C"] "A" "A" with processesReady := 3 }
        : ProcessInitializationState).checkBarrier reliable =
      ({ NewProcessInitialization ["A", "B", "C"] "A" "A" with
          processesReady := 3, readyChan := 1 },
       [BarrierCall.ConnectTo "B", BarrierCall.Start "B", BarrierCall.ConnectTo "C",
        BarrierCall.Start "C", BarrierCall.signal], BarrierOutcome.returned none) ∧
    ({ NewProcessInitialization ["A", "B", "C"] "A" "A" with
          processesReady := 3, readyChan := 1 }
        : ProcessInitializationState).checkBarrier reliable =
      ({ NewProcessInitialization ["A", "B", "C"] "A" "A" with
          processesReady := 3, readyChan := 1 },
       [BarrierCall.ConnectTo "B", BarrierCall.Start "B", BarrierCall.ConnectTo "C",
        BarrierCall.Start "C"], BarrierOutcome.blocked) ∧
    ({ NewProcessInitialization ["A", "B", "C"] "A" "A" with processesReady := 2 }
        : ProcessInitializationState).checkBarrier reliable =
      ({ NewProcessInitialization ["A", "B", "C"] "A" "A" with processesReady := 2 }, [],
       BarrierOutcome.returned none) ∧
    BarrierCall.signal ∉
      (({ NewProcessInitialization ["A", "B", "C"] "A" "A" with processesReady := 3 }
        : ProcessInitializationState).checkBarrier unreachableC).2.1 ∧
    ({ NewProcessInitialization ["A", "B", "C"] "A" "A" with processesReady := 3 }
        : ProcessInitializationState).checkBarrier unreachableC =
      ({ NewProcessInitialization ["A", "B", "C"] "A" "A" with processesReady := 3 },
       [BarrierCall.ConnectTo "B", BarrierCall.Start "B", BarrierCall.ConnectTo "C"],
       BarrierOutcome.returned (some "dial tcp: connection refused")) :=
  ⟨((checkBarrier_releases_at_N_on_empty_readyChan
      { NewProcessInitialization ["A", "B", "C"] "A" "A" with processesReady := 3 }
      reliable).1 rfl (fun _ _ => rfl) (fun _ _ => rfl)).1 rfl,
   ((checkBarrier_releases_at_N_on_empty_readyChan
      { NewProcessInitialization ["A", "B", "C"] "A" "A" with
        processesReady := 3, readyChan := 1 }
      reliable).1 rfl (fun _ _ => rfl) (fun _ _ => rfl)).2.1 (by decide),
   (checkBarrier_releases_at_N_on_empty_readyChan
      { NewProcessInitialization ["A", "B", "C"] "A" "A" with processesReady := 2 }
      reliable).2.1 (by decide),
   ((checkBarrier_releases_at_N_on_empty_readyChan
      { NewProcessInitialization ["A", "B", "C"] "A" "A" with processesReady := 3 }
      unreachableC).2.2.2 "dial tcp: connection refused" (by decide)).2.1,
   ((checkBarrier_releases_at_N_on_empty_readyChan
      { NewProcessInitialization ["A", "B", "C"] "A" "A" with processesReady := 3 }
      unreachableC).2.2.1 ["A", "B"] [] "C" "dial tcp: connection refused" rfl rfl
      (by decide) (by
        intro h x hx
        simp only [List.mem_cons, List.mem_singleton, List.not_mem_nil, or_false] at hx
        rcases hx with hx | hx <;> subst hx <;> exact ⟨by simp [unreachableC], rfl⟩)).1 rfl⟩

/-- The last step of a call of `WaitPeers` stores 0 in `processesReady` and
returns. -/
theorem stepAt_resetting (s : Barrier) (p : String) :
    ∃ s1, s.stepAt p Loc.resetting = some s1 ∧ (s1.procs p).processesReady = 0 ∧
      s1.loc p = Loc.idle ∧ s1.returned p = s.returned p + 1 ∧
      (s1.procs p).readyChan = (s.procs p).readyChan :=
  ⟨_, rfl, by simp [Barrier.ret, Barrier.storeZero], by simp [Barrier.ret],
    by simp [Barrier.ret, Barrier.storeZero], by simp [Barrier.ret, Barrier.storeZero]⟩

/-- C13, the code at a failing execution: in `doubleRelease` the first call of
`WaitPeers` on `"B"` returns `nil` with `processesReady` 0 and with a value left
in `readyChan`; the second call of `WaitPeers` on `"B"` then returns although
`WaitPeers` was called once only on `"A"`, where it has not returned. -/
theorem WaitPeers_returns_with_signal_left :
    ((Barrier.initial ["A", "B"] "A").run ["A", "B"] doubleRelease).map
        (fun s => (s.loc "B", s.returned "B", (s.procs "B").processesReady,
          (s.procs "B").readyChan)) = some (Loc.idle, 1, 0, 1) ∧
    ((Barrier.initial ["A", "B"] "A").run ["A", "B"] (doubleRelease ++ secondCrossing)).map
        (fun s => (s.returned "B", s.called "A", s.returned "A")) = some (2, 1, 0) := by
  decide

/-! ## The claims on the gossip task -/

/-- C15: a broadcast tick leaves the GCounter state as it is; when `hasOldValue`
is true it issues no `ReceiveValue` call; otherwise it issues one call, carrying
the current map `value`, for each peer a client is held for once
`tryConnectPeers` has run, and none for any other id. -/
theorem tick_sends_committed_value (dial : TLAValue → String → Bool) (g : Gossip) :
    (g.tick dial).1.res = g.res ∧
    (g.tick dial).1.peers = (g.tryConnectPeers dial).peers ∧
    (g.res.state.hasOldValue = true → (g.tick dial).2 = []) ∧
    (g.res.state.hasOldValue = false →
      (g.tick dial).2 =
        (g.tick dial).1.peers.ids.map (fun id => (id, ⟨g.res.state.value⟩)) ∧
      ∀ id, ((g.tick dial).2.map Prod.fst).count id =
        if id ∈ (g.tick dial).1.peers.ids then 1 else 0) := by
  cases h : g.res.state.hasOldValue with
  | true =>
    simp [Gossip.tick, Gossip.tryConnectPeers, Gossip.RLock, h]
  | false =>
    simp only [Gossip.tick, Gossip.tryConnectPeers, Gossip.RLock, Gossip.RUnlock, h,
      Bool.false_eq_true, if_false, true_and, false_implies, forall_const,
      List.map_map]
    intro id
    have hn := (Gossip.tryConnectLoop dial g.peerAddrs g.peers).nodup
    have hmap : (Prod.fst ∘ fun id => (id, ({ Value := g.res.state.value } : ReceiveValueArgs))) =
        (fun id : TLAValue => id) := rfl
    rw [hmap, List.map_id']
    by_cases hm : id ∈ (Gossip.tryConnectLoop dial g.peerAddrs g.peers).ids
    · rw [if_pos hm]; exact List.count_eq_one_of_mem hn hm
    · rw [if_neg hm]; exact List.count_eq_zero_of_not_mem hm

/-- C15 at concrete inputs: the resource holding 5, once as it is and once after
a write of 9; the dial of peer 3 succeeds. -/
theorem tick_sends_committed_value_witness :
    ((sampleGossip (counterHolding 5)).tick (fun _ _ => true)).2 =
      [(TLAValue.number 2, ⟨(counterHolding 5).state.value⟩),
       (TLAValue.number 3, ⟨(counterHolding 5).state.value⟩)] ∧
    ∀ res1, (counterHolding 5).WriteValue (TLAValue.number 9) = some res1 →
      ((sampleGossip res1).tick (fun _ _ => true)).2 = [] :=
  ⟨by
    have h := ((tick_sends_committed_value (fun _ _ => true)
      (sampleGossip (counterHolding 5))).2.2.2 rfl).1
    rw [h]; decide,
   fun res1 h1 => (tick_sends_committed_value (fun _ _ => true) (sampleGossip res1)).2.2.1 (by
    simp only [GCounter.WriteValue, AsNumber, Option.some.injEq] at h1
    subst h1
    rfl)⟩

/-- C18: a broadcast tick on which `hasOldValue` is true ends with one more read
lock on the state lock held by the gossip task than at its start; a tick on which
`hasOldValue` is false ends with as many as at its start. -/
theorem tick_read_locks (dial : TLAValue → String → Bool) (g : Gossip) :
    (g.res.state.hasOldValue = true → (g.tick dial).1.stateRLocks = g.stateRLocks + 1) ∧
    (g.res.state.hasOldValue = false → (g.tick dial).1.stateRLocks = g.stateRLocks) := by
  cases h : g.res.state.hasOldValue with
  | true => simp [Gossip.tick, Gossip.tryConnectPeers, Gossip.RLock, h]
  | false => simp [Gossip.tick, Gossip.tryConnectPeers, Gossip.RLock, Gossip.RUnlock, h]

/-- C18 at concrete inputs: the resource holding 5, once after a write of 9 and
once as it is. -/
theorem tick_read_locks_witness :
    (∀ res1, (counterHolding 5).WriteValue (TLAValue.number 9) = some res1 →
      ((sampleGossip res1).tick (fun _ _ => false)).1.stateRLocks = 1) ∧
    ((sampleGossip (counterHolding 5)).tick (fun _ _ => false)).1.stateRLocks = 0 :=
  ⟨fun res1 h1 => (tick_read_locks (fun _ _ => false) (sampleGossip res1)).1 (by
    simp only [GCounter.WriteValue, AsNumber, Option.some.injEq] at h1
    subst h1
    rfl),
   (tick_read_locks (fun _ _ => false) (sampleGossip (counterHolding 5))).2 rfl⟩

/-! ## The claim on `ACRDTResource.receiveReq` -/

theorem TLA_BackslashSymbol_singleton (elems : List TLAValue) (target : TLAValue) :
    TLA_BackslashSymbol (TLAValue.set elems) (MakeTLASet [target]) =
      some (TLAValue.set (elems.filter (fun x => decide (x ≠ target)))) := by
  simp [TLA_BackslashSymbol, TLAValue.AsSet, MakeTLASet]

theorem NextFairnessCounter_pos (iface : ArchetypeInterface) (id : String) (ceiling : Nat)
    (h : ceiling ≠ 0) :
    iface.NextFairnessCounter id ceiling = some
      ({ iface with
          fairnessCounters := upd iface.fairnessCounters id (iface.fairnessCounters id + 1)
          calls := iface.calls ++ [IfaceCall.NextFairnessCounter id ceiling] },
       iface.fairnessCounters id % ceiling) := by
  simp [ArchetypeInterface.NextFairnessCounter, h]

/-- The arm `case 2:` on an empty set: one `Read`, then the abort. -/
theorem receiveReqCase2_empty (iface : ArchetypeInterface)
    (hread : iface.resources.Read iface.calls "ACRDTResource.remainingPeersToUpdate" [] =
      Except.ok (TLAValue.set [])) :
    receiveReqCase2 iface =
      ({ iface with
          calls := iface.calls ++ [IfaceCall.Read "ACRDTResource.remainingPeersToUpdate" []] },
       some (BodyOutcome.returned (some DistsysError.ErrCriticalSectionAborted))) := by
  simp [receiveReqCase2, ArchetypeInterface.Read, hread, TLAValue.AsSet]

/-- The arm `case 2:` on a set that is not empty, the reads and writes
succeeding: it runs to its end. -/
theorem receiveReqCase2_nonempty (iface : ArchetypeInterface) (elems elems2 : List TLAValue)
    (target stateVal : TLAValue) (hne : elems ≠ [])
    (hread : iface.resources.Read iface.calls "ACRDTResource.remainingPeersToUpdate" [] =
      Except.ok (TLAValue.set elems))
    (htarget : elems.get? (iface.fairnessCounters "ACRDTResource.receiveReq.1" % elems.length) =
      some target)
    (hstate : iface.resources.Read
      (iface.calls ++ [IfaceCall.Read "ACRDTResource.remainingPeersToUpdate" [],
        IfaceCall.NextFairnessCounter "ACRDTResource.receiveReq.1" elems.length])
      "ACRDTResource.state" [] = Except.ok stateVal)
    (hnet : iface.resources.Write
      (iface.calls ++ [IfaceCall.Read "ACRDTResource.remainingPeersToUpdate" [],
        IfaceCall.NextFairnessCounter "ACRDTResource.receiveReq.1" elems.length,
        IfaceCall.Read "ACRDTResource.state" []])
      "ACRDTResource.network" [target] stateVal = none)
    (hread2 : iface.resources.Read
      (iface.calls ++ [IfaceCall.Read "ACRDTResource.remainingPeersToUpdate" [],
        IfaceCall.NextFairnessCounter "ACRDTResource.receiveReq.1" elems.length,
        IfaceCall.Read "ACRDTResource.state" [],
        IfaceCall.Write "ACRDTResource.network" [target] stateVal])
      "ACRDTResource.remainingPeersToUpdate" [] = Except.ok (TLAValue.set elems2))
    (hwrite : iface.resources.Write
      (iface.calls ++ [IfaceCall.Read "ACRDTResource.remainingPeersToUpdate" [],
        IfaceCall.NextFairnessCounter "ACRDTResource.receiveReq.1" elems.length,
        IfaceCall.Read "ACRDTResource.state" [],
        IfaceCall.Write "ACRDTResource.network" [target] stateVal,
        IfaceCall.Read "ACRDTResource.remainingPeersToUpdate" []])
      "ACRDTResource.remainingPeersToUpdate" []
      (TLAValue.set (elems2.filter (fun x => decide (x ≠ target)))) = none) :
    receiveReqCase2 iface =
      ({ iface with
          fairnessCounters := upd iface.fairnessCounters "ACRDTResource.receiveReq.1"
            (iface.fairnessCounters "ACRDTResource.receiveReq.1" + 1)
          calls := iface.calls ++ [IfaceCall.Read "ACRDTResource.remainingPeersToUpdate" [],
            IfaceCall.NextFairnessCounter "ACRDTResource.receiveReq.1" elems.length,
            IfaceCall.Read "ACRDTResource.state" [],
            IfaceCall.Write "ACRDTResource.network" [target] stateVal,
            IfaceCall.Read "ACRDTResource.remainingPeersToUpdate" [],
            IfaceCall.Write "ACRDTResource.remainingPeersToUpdate" []
              (TLAValue.set (elems2.filter (fun x => decide (x ≠ target))))] },
       none) := by
  have hlen : elems.length ≠ 0 := fun h => hne (List.length_eq_zero.1 h)
  have hlen2 : ¬ elems.length = 0 := hlen
  unfold receiveReqCase2
  simp only [ArchetypeInterface.Read, hread, TLAValue.AsSet, hlen2, if_false]
  rw [NextFairnessCounter_pos _ _ _ hlen]
  simp only [TLAValue.SelectElement, TLAValue.AsSet, htarget, List.append_assoc,
    List.singleton_append, List.cons_append, List.nil_append, hstate]
  simp only [ArchetypeInterface.Write, List.append_assoc,
    List.singleton_append, List.cons_append, List.nil_append, hnet]
  simp only [List.append_assoc,
    List.singleton_append, List.cons_append, List.nil_append, hread2,
    TLA_BackslashSymbol_singleton]
  simp only [List.append_assoc,
    List.singleton_append, List.cons_append, List.nil_append, hwrite]

theorem AsSet_eq_some (v : TLAValue) (elems : List TLAValue) (h : v.AsSet = some elems) :
    v = TLAValue.set elems := by
  cases v <;> simp [TLAValue.AsSet] at h
  rw [h]

/-- The arm `case 2:` returns `ErrCriticalSectionAborted` only on an empty set or
when the call it made last is a `Read` or a `Write` of a resource to which the
resource returned this error. -/
theorem receiveReqCase2_aborted (iface i2 : ArchetypeInterface)
    (h : receiveReqCase2 iface =
      (i2, some (BodyOutcome.returned (some DistsysError.ErrCriticalSectionAborted)))) :
    iface.resources.Read iface.calls "ACRDTResource.remainingPeersToUpdate" [] =
        Except.ok (TLAValue.set []) ∨
    (∃ pre resource indices,
      i2.calls = pre ++ [IfaceCall.Read resource indices] ∧ iface.calls <+: pre ∧
      iface.resources.Read pre resource indices =
        Except.error DistsysError.ErrCriticalSectionAborted) ∨
    (∃ pre resource indices value,
      i2.calls = pre ++ [IfaceCall.Write resource indices value] ∧ iface.calls <+: pre ∧
      iface.resources.Write pre resource indices value =
        some DistsysError.ErrCriticalSectionAborted) := by
  unfold receiveReqCase2 at h
  simp only [ArchetypeInterface.Read, ArchetypeInterface.Write] at h
  cases h1 : iface.resources.Read iface.calls "ACRDTResource.remainingPeersToUpdate" [] with
  | error e =>
    rw [h1] at h
    simp only [Prod.mk.injEq, Option.some.injEq, BodyOutcome.returned.injEq] at h
    obtain ⟨hi, he⟩ := h
    subst hi he
    exact Or.inr (Or.inl ⟨_, _, _, rfl, List.prefix_refl _, h1⟩)
  | ok targetRead =>
    rw [h1] at h
    simp only at h
    cases h2 : targetRead.AsSet with
    | none => rw [h2] at h; simp at h
    | some elems =>
      rw [h2] at h
      simp only at h
      by_cases hlen : elems.length = 0
      · left
        have he : elems = [] := List.length_eq_zero.1 hlen
        rw [AsSet_eq_some targetRead elems h2, he]
      · right
        rw [if_neg hlen, NextFairnessCounter_pos _ _ _ hlen] at h
        simp only at h
        cases h3 : targetRead.SelectElement
            (iface.fairnessCounters "ACRDTResource.receiveReq.1" % elems.length) with
        | none => rw [h3] at h; simp at h
        | some target =>
          rw [h3] at h
          simp only at h
          generalize hc4 : (iface.calls ++ [IfaceCall.Read "ACRDTResource.remainingPeersToUpdate" []] ++
            [IfaceCall.NextFairnessCounter "ACRDTResource.receiveReq.1" elems.length]) = c4 at h
          have p4 : iface.calls <+: c4 := by
            rw [← hc4, List.append_assoc]; exact List.prefix_append _ _
          cases h4 : iface.resources.Read c4 "ACRDTResource.state" [] with
          | error e =>
            rw [h4] at h
            simp only [Prod.mk.injEq, Option.some.injEq, BodyOutcome.returned.injEq] at h
            obtain ⟨hi, he⟩ := h
            subst hi he
            exact Or.inl ⟨_, _, _, rfl, p4, h4⟩
          | ok exprRead12 =>
            rw [h4] at h
            simp only at h
            generalize hc5 : c4 ++ [IfaceCall.Read "ACRDTResource.state" []] = c5 at h
            have p5 : iface.calls <+: c5 := by
              rw [← hc5]; exact p4.trans (List.prefix_append _ _)
            cases h5 : iface.resources.Write c5 "ACRDTResource.network" [target] exprRead12 with
            | some e =>
              rw [h5] at h
              simp only [Prod.mk.injEq, Option.some.injEq, BodyOutcome.returned.injEq] at h
              obtain ⟨hi, he⟩ := h
              subst hi he
              exact Or.inr ⟨_, _, _, _, rfl, p5, h5⟩
            | none =>
              rw [h5] at h
              simp only at h
              generalize hc6 : c5 ++ [IfaceCall.Write "ACRDTResource.network" [target] exprRead12] =
                c6 at h
              have p6 : iface.calls <+: c6 := by
                rw [← hc6]; exact p5.trans (List.prefix_append _ _)
              cases h6 : iface.resources.Read c6 "ACRDTResource.remainingPeersToUpdate" [] with
              | error e =>
                rw [h6] at h
                simp only [Prod.mk.injEq, Option.some.injEq, BodyOutcome.returned.injEq] at h
                obtain ⟨hi, he⟩ := h
                subst hi he
                exact Or.inl ⟨_, _, _, rfl, p6, h6⟩
              | ok exprRead13 =>
                rw [h6] at h
                simp only at h
                cases h7 : TLA_BackslashSymbol exprRead13 (MakeTLASet [target]) with
                | none => rw [h7] at h; simp at h
                | some rest =>
                  rw [h7] at h
                  simp only at h
                  generalize hc8 :
                    c6 ++ [IfaceCall.Read "ACRDTResource.remainingPeersToUpdate" []] = c8 at h
                  have p8 : iface.calls <+: c8 := by
                    rw [← hc8]; exact p6.trans (List.prefix_append _ _)
                  cases h8 : iface.resources.Write c8 "ACRDTResource.remainingPeersToUpdate" []
                      rest with
                  | some e =>
                    rw [h8] at h
                    simp only [Prod.mk.injEq, Option.some.injEq, BodyOutcome.returned.injEq] at h
                    obtain ⟨hi, he⟩ := h
                    subst hi he
                    exact Or.inr ⟨_, _, _, _, rfl, p8, h8⟩
                  | none => rw [h8] at h; simp at h

theorem receiveReq_alternative2 (case0 case1 : ArchetypeInterface → ArchetypeInterface × Option BodyOutcome)
    (iface : ArchetypeInterface)
    (halt : iface.fairnessCounters "ACRDTResource.receiveReq.0" % 3 = 2) :
    receiveReq case0 case1 iface =
      match receiveReqCase2 iface.afterSwitch with
      | (iface2, some outcome) => (iface2, outcome)
      | (iface2, none) =>
        ((iface2.Goto "ACRDTResource.receiveReq").1,
         BodyOutcome.returned (iface2.Goto "ACRDTResource.receiveReq").2) := by
  unfold receiveReq
  rw [NextFairnessCounter_pos _ _ _ (by decide : (3 : Nat) ≠ 0)]
  simp only [halt]
  rfl

/-- C16, a counterexample to the claim as stated: the value read from
`remainingPeersToUpdate` is the set of 1 and 2, the `Write` to `network` returns
`ErrCriticalSectionAborted`, and so does the body. -/
theorem receiveReq_aborts_on_nonempty_set :
    (sampleIface (TLAValue.set [TLAValue.number 1, TLAValue.number 2])
        (some DistsysError.ErrCriticalSectionAborted)).fairnessCounters
      "ACRDTResource.receiveReq.0" % 3 = 2 ∧
    (sampleIface (TLAValue.set [TLAValue.number 1, TLAValue.number 2])
        (some DistsysError.ErrCriticalSectionAborted)).afterSwitch.resources.Read
      (sampleIface (TLAValue.set [TLAValue.number 1, TLAValue.number 2])
        (some DistsysError.ErrCriticalSectionAborted)).afterSwitch.calls
      "ACRDTResource.remainingPeersToUpdate" [] =
        Except.ok (TLAValue.set [TLAValue.number 1, TLAValue.number 2]) ∧
    TLAValue.set [TLAValue.number 1, TLAValue.number 2] ≠ TLAValue.set [] ∧
    (receiveReq emptyArm emptyArm
      (sampleIface (TLAValue.set [TLAValue.number 1, TLAValue.number 2])
        (some DistsysError.ErrCriticalSectionAborted))).2 =
      BodyOutcome.returned (some DistsysError.ErrCriticalSectionAborted) :=
  ⟨by decide, rfl, by decide, by decide⟩

/-- C16 as amended: when the first fairness counter selects alternative 2, (1) if
the value read from `remainingPeersToUpdate` is the empty set the body returns
`ErrCriticalSectionAborted` and its only calls are the `NextFairnessCounter` of
the `switch` and this `Read`; (2) if the value read is a set that is not empty
and the reads and writes that follow return no error, the body calls
`NextFairnessCounter` with the size of the set, writes the value read from
`state` to `network[target]` for a member `target` of the set, writes the value
then read from `remainingPeersToUpdate` less `target`, goes to
`ACRDTResource.receiveReq` and returns `nil`; (3) the body returns
`ErrCriticalSectionAborted` only if the value read is the empty set or one of its
own `Read`s or `Write`s of a resource returns this error: the call the body made
last, after the `NextFairnessCounter` of the `switch`, is then a `Read` or a
`Write` to which the resource returned `ErrCriticalSectionAborted`. -/
theorem receiveReq_case2_cases
    (case0 case1 : ArchetypeInterface → ArchetypeInterface × Option BodyOutcome)
    (iface : ArchetypeInterface)
    (halt : iface.fairnessCounters "ACRDTResource.receiveReq.0" % 3 = 2) :
    (iface.afterSwitch.resources.Read iface.afterSwitch.calls
        "ACRDTResource.remainingPeersToUpdate" [] = Except.ok (TLAValue.set []) →
      receiveReq case0 case1 iface =
        ({ iface.afterSwitch with
            calls := iface.afterSwitch.calls ++
              [IfaceCall.Read "ACRDTResource.remainingPeersToUpdate" []] },
         BodyOutcome.returned (some DistsysError.ErrCriticalSectionAborted))) ∧
    (∀ (elems elems2 : List TLAValue) (target stateVal : TLAValue), elems ≠ [] →
      iface.afterSwitch.resources.Read iface.afterSwitch.calls
        "ACRDTResource.remainingPeersToUpdate" [] = Except.ok (TLAValue.set elems) →
      elems.get? (iface.afterSwitch.fairnessCounters "ACRDTResource.receiveReq.1" %
        elems.length) = some target →
      iface.afterSwitch.resources.Read
        (iface.afterSwitch.calls ++ [IfaceCall.Read "ACRDTResource.remainingPeersToUpdate" [],
          IfaceCall.NextFairnessCounter "ACRDTResource.receiveReq.1" elems.length])
        "ACRDTResource.state" [] = Except.ok stateVal →
      iface.afterSwitch.resources.Write
        (iface.afterSwitch.calls ++ [IfaceCall.Read "ACRDTResource.remainingPeersToUpdate" [],
          IfaceCall.NextFairnessCounter "ACRDTResource.receiveReq.1" elems.length,
          IfaceCall.Read "ACRDTResource.state" []])
        "ACRDTResource.network" [target] stateVal = none →
      iface.afterSwitch.resources.Read
        (iface.afterSwitch.calls ++ [IfaceCall.Read "ACRDTResource.remainingPeersToUpdate" [],
          IfaceCall.NextFairnessCounter "ACRDTResource.receiveReq.1" elems.length,
          IfaceCall.Read "ACRDTResource.state" [],
          IfaceCall.Write "ACRDTResource.network" [target] stateVal])
        "ACRDTResource.remainingPeersToUpdate" [] = Except.ok (TLAValue.set elems2) →
      iface.afterSwitch.resources.Write
        (iface.afterSwitch.calls ++ [IfaceCall.Read "ACRDTResource.remainingPeersToUpdate" [],
          IfaceCall.NextFairnessCounter "ACRDTResource.receiveReq.1" elems.length,
          IfaceCall.Read "ACRDTResource.state" [],
          IfaceCall.Write "ACRDTResource.network" [target] stateVal,
          IfaceCall.Read "ACRDTResource.remainingPeersToUpdate" []])
        "ACRDTResource.remainingPeersToUpdate" []
        (TLAValue.set (elems2.filter (fun x => decide (x ≠ target)))) = none →
      target ∈ elems ∧
      receiveReq case0 case1 iface =
        ({ iface.afterSwitch with
            fairnessCounters := upd iface.afterSwitch.fairnessCounters
              "ACRDTResource.receiveReq.1"
              (iface.afterSwitch.fairnessCounters "ACRDTResource.receiveReq.1" + 1)
            nextLabel := some "ACRDTResource.receiveReq"
            calls := iface.afterSwitch.calls ++
              [IfaceCall.Read "ACRDTResource.remainingPeersToUpdate" [],
               IfaceCall.NextFairnessCounter "ACRDTResource.receiveReq.1" elems.length,
               IfaceCall.Read "ACRDTResource.state" [],
               IfaceCall.Write "ACRDTResource.network" [target] stateVal,
               IfaceCall.Read "ACRDTResource.remainingPeersToUpdate" [],
               IfaceCall.Write "ACRDTResource.remainingPeersToUpdate" []
                 (TLAValue.set (elems2.filter (fun x => decide (x ≠ target)))),
               IfaceCall.Goto "ACRDTResource.receiveReq"] },
         BodyOutcome.returned none)) ∧
    ((receiveReq case0 case1 iface).2 =
        BodyOutcome.returned (some DistsysError.ErrCriticalSectionAborted) →
      iface.afterSwitch.resources.Read iface.afterSwitch.calls
          "ACRDTResource.remainingPeersToUpdate" [] = Except.ok (TLAValue.set []) ∨
      (∃ pre resource indices,
        (receiveReq case0 case1 iface).1.calls = pre ++ [IfaceCall.Read resource indices] ∧
        iface.afterSwitch.calls <+: pre ∧
        iface.resources.Read pre resource indices =
          Except.error DistsysError.ErrCriticalSectionAborted) ∨
      (∃ pre resource indices value,
        (receiveReq case0 case1 iface).1.calls =
          pre ++ [IfaceCall.Write resource indices value] ∧
        iface.afterSwitch.calls <+: pre ∧
        iface.resources.Write pre resource indices value =
          some DistsysError.ErrCriticalSectionAborted)) := by
  refine ⟨?_, ?_, ?_⟩
  · intro hread
    rw [receiveReq_alternative2 case0 case1 iface halt, receiveReqCase2_empty _ hread]
  · intro elems elems2 target stateVal hne hread htarget hstate hnet hread2 hwrite
    refine ⟨List.get?_mem htarget, ?_⟩
    rw [receiveReq_alternative2 case0 case1 iface halt,
      receiveReqCase2_nonempty _ elems elems2 target stateVal hne hread htarget hstate hnet
        hread2 hwrite]
    simp [ArchetypeInterface.Goto]
  · intro h
    rw [receiveReq_alternative2 case0 case1 iface halt] at h ⊢
    cases hc : receiveReqCase2 iface.afterSwitch with
    | mk i2 o =>
      rw [hc] at h
      cases o with
      | none => simp [ArchetypeInterface.Goto] at h
      | some outcome =>
        simp only at h ⊢
        subst h
        exact receiveReqCase2_aborted iface.afterSwitch i2 hc

/-- C16 as amended, at concrete inputs: the set of 1 and 2 with resources that
return no error, the empty set, and the set of 1 and 2 with a `Write` to
`network` that returns `ErrCriticalSectionAborted`. -/
theorem receiveReq_case2_cases_witness :
    (receiveReq emptyArm emptyArm
      (sampleIface (TLAValue.set [TLAValue.number 1, TLAValue.number 2]) none)).2 =
        BodyOutcome.returned none ∧
    (receiveReq emptyArm emptyArm
      (sampleIface (TLAValue.set [TLAValue.number 1, TLAValue.number 2]) none)).1.calls =
        [IfaceCall.NextFairnessCounter "ACRDTResource.receiveReq.0" 3,
         IfaceCall.Read "ACRDTResource.remainingPeersToUpdate" [],
         IfaceCall.NextFairnessCounter "ACRDTResource.receiveReq.1" 2,
         IfaceCall.Read "ACRDTResource.state" [],
         IfaceCall.Write "ACRDTResource.network" [TLAValue.number 1] (TLAValue.number 7),
         IfaceCall.Read "ACRDTResource.remainingPeersToUpdate" [],
         IfaceCall.Write "ACRDTResource.remainingPeersToUpdate" []
           (TLAValue.set [TLAValue.number 2]),
         IfaceCall.Goto "ACRDTResource.receiveReq"] ∧
    (receiveReq emptyArm emptyArm (sampleIface (TLAValue.set []) none)).2 =
        BodyOutcome.returned (some DistsysError.ErrCriticalSectionAborted) ∧
    ((receiveReq emptyArm emptyArm
        (sampleIface (TLAValue.set [TLAValue.number 1, TLAValue.number 2])
          (some DistsysError.ErrCriticalSectionAborted))).2 =
        BodyOutcome.returned (some DistsysError.ErrCriticalSectionAborted) ∧
     ((sampleIface (TLAValue.set [TLAValue.number 1, TLAValue.number 2])
          (some DistsysError.ErrCriticalSectionAborted)).afterSwitch.resources.Read
        (sampleIface (TLAValue.set [TLAValue.number 1, TLAValue.number 2])
          (some DistsysError.ErrCriticalSectionAborted)).afterSwitch.calls
        "ACRDTResource.remainingPeersToUpdate" [] = Except.ok (TLAValue.set []) ∨
      (∃ pre resource indices,
        (receiveReq emptyArm emptyArm
          (sampleIface (TLAValue.set [TLAValue.number 1, TLAValue.number 2])
            (some DistsysError.ErrCriticalSectionAborted))).1.calls =
          pre ++ [IfaceCall.Read resource indices] ∧
        (sampleIface (TLAValue.set [TLAValue.number 1, TLAValue.number 2])
          (some DistsysError.ErrCriticalSectionAborted)).afterSwitch.calls <+: pre ∧
        (sampleIface (TLAValue.set [TLAValue.number 1, TLAValue.number 2])
          (some DistsysError.ErrCriticalSectionAborted)).resources.Read pre resource indices =
          Except.error DistsysError.ErrCriticalSectionAborted) ∨
      (∃ pre resource indices value,
        (receiveReq emptyArm emptyArm
          (sampleIface (TLAValue.set [TLAValue.number 1, TLAValue.number 2])
            (some DistsysError.ErrCriticalSectionAborted))).1.calls =
          pre ++ [IfaceCall.Write resource indices value] ∧
        (sampleIface (TLAValue.set [TLAValue.number 1, TLAValue.number 2])
          (some DistsysError.ErrCriticalSectionAborted)).afterSwitch.calls <+: pre ∧
        (sampleIface (TLAValue.set [TLAValue.number 1, TLAValue.number 2])
          (some DistsysError.ErrCriticalSectionAborted)).resources.Write pre resource indices
            value = some DistsysError.ErrCriticalSectionAborted))) :=
  ⟨by
    rw [((receiveReq_case2_cases emptyArm emptyArm
      (sampleIface (TLAValue.set [TLAValue.number 1, TLAValue.number 2]) none)
      (by decide)).2.1 [TLAValue.number 1, TLAValue.number 2]
      [TLAValue.number 1, TLAValue.number 2] (TLAValue.number 1) (TLAValue.number 7)
      (by decide) rfl rfl rfl rfl rfl rfl).2],
   by decide,
   by
    rw [(receiveReq_case2_cases emptyArm emptyArm (sampleIface (TLAValue.set []) none)
      (by decide)).1 rfl],
   by decide,
   (receiveReq_case2_cases emptyArm emptyArm
      (sampleIface (TLAValue.set [TLAValue.number 1, TLAValue.number 2])
        (some DistsysError.ErrCriticalSectionAborted)) (by decide)).2.2 (by decide)⟩

end PGo
